import Mathlib

/-! Penaltis: the prediction pipeline of `script.js` and its hard-coded
variant `app.js`.

A shallow embedding of `buildInputVector`, `scaleNumeric` and
`predictFromInputs` (src/script.js) and of the validation and the input vector
of `predecir` (src/app.js), together with the properties stated about them.

Modelling conventions
* A JavaScript string is a list of characters (`Str`); the literals of the
  source are written `"...".data`.
* A JavaScript Number is `JSNumber`: `NaN` or a finite value held exactly as a
  rational (exact arithmetic, no rounding, no infinities, no signed zero).
* An array slot is `Option JSNumber`, `none` standing for a hole, which reads
  as `undefined`.
* A thrown `TypeError` is `Except.error JSError.typeError`.
-/

namespace Penaltis

/-! ## Strings -/

/-- JavaScript string, as the sequence of its characters. -/
abbrev Str := List Char

/-- Lower-casing of one character: `String.prototype.toLowerCase` as it acts
on ASCII text, where the letters `A` to `Z` are mapped and every other
character is kept (the case mappings of non-ASCII letters are not modelled). -/
def lowerChar (c : Char) : Char :=
  if 65 ≤ c.toNat ∧ c.toNat ≤ 90 then Char.ofNat (c.toNat + 32) else c

/-- `s.toLowerCase()`, character by character. -/
def toLowerCase (s : Str) : Str := s.map lowerChar

/-- White space and line terminators removed by `String.prototype.trim`
(ECMAScript WhiteSpace and LineTerminator productions). -/
def isTrimmed (c : Char) : Bool :=
  let n := c.toNat
  (9 ≤ n && n ≤ 13) || n == 32 || n == 160 || n == 5760 || (8192 ≤ n && n ≤ 8202)
    || n == 8232 || n == 8233 || n == 8239 || n == 8287 || n == 12288 || n == 65279

/-- `s.trim()`. -/
def trim (s : Str) : Str :=
  ((s.dropWhile isTrimmed).reverse.dropWhile isTrimmed).reverse

/-- `s.split(sep)` for a one-character separator: the segments between the
occurrences of `sep`, in order (`"".split(sep)` is `[""]`). -/
def split (sep : Char) : Str → List Str
  | [] => [[]]
  | ch :: rest =>
    if ch = sep then [] :: split sep rest
    else
      match split sep rest with
      | [] => [[ch]]
      | seg :: segs => (ch :: seg) :: segs

/-- `s.lastIndexOf(ch)`: the index of the last occurrence of `ch`, or `-1`. -/
def lastIndexOf (ch : Char) : Str → Int
  | [] => -1
  | x :: xs =>
    let r := lastIndexOf ch xs
    if 0 ≤ r then r + 1 else if x = ch then 0 else -1

/-- `cols.indexOf(name)`: the index of the first occurrence of `name`, or `-1`. -/
def indexOf (name : Str) : List Str → Int
  | [] => -1
  | c :: cs =>
    if c = name then 0
    else
      let r := indexOf name cs
      if 0 ≤ r then r + 1 else -1

/-- `s.substring(a, b)` for `0 ≤ a ≤ b`. -/
def substring (s : Str) (a b : Nat) : Str := (s.take b).drop a

/-- `s.substring(a)` for `0 ≤ a`. -/
def substringFrom (s : Str) (a : Nat) : Str := s.drop a

/-! ## Numbers -/

/-- JavaScript Number in exact arithmetic: `NaN` or a finite rational. -/
inductive JSNumber where
  | nan
  | fin (q : ℚ)
  deriving DecidableEq

namespace JSNumber

/-- Subtraction `a - b`; `NaN` is absorbing. -/
def sub : JSNumber → JSNumber → JSNumber
  | fin a, fin b => fin (a - b)
  | _, _ => nan

/-- Division `a / b`; `NaN` is absorbing.  A zero divisor, which IEEE 754
answers with an infinity or `NaN`, lies outside the finite model and gives
`nan` here. -/
def div : JSNumber → JSNumber → JSNumber
  | fin a, fin b => if b = 0 then nan else fin (a / b)
  | _, _ => nan

end JSNumber

/-- Decimal digits of a natural number, most significant first. -/
def natDigits (n : Nat) : Str := Nat.toDigits 10 n

/-- Removes the trailing zero digits of `s` (at most `fuel` of them). -/
def stripZeros : Nat → Nat → Nat
  | 0, s => s
  | fuel + 1, s => if s ≠ 0 ∧ s % 10 = 0 then stripZeros fuel (s / 10) else s

/-- The least `e` with `den ∣ 10 ^ e`, when the fraction has a finite decimal
expansion. -/
def decimalExponent (den : Nat) : Option Nat :=
  (List.range (den + 1)).find? (fun e => 10 ^ e % den == 0)

/-- For a positive value `a / d`: the pair `(s, n)` of Number::toString, the
value being `s × 10 ^ (n - k)` with `k` the number of digits of `s` and `s`
without trailing zero.  A value with no finite decimal expansion (no numeric
literal denotes one) is cut to 17 significant digits. -/
def decimalForm (a d : Nat) : Nat × Int :=
  match decimalExponent d with
  | some e =>
    let s0 := a * 10 ^ e / d
    (stripZeros s0 s0, ((natDigits s0).length : Int) - e)
  | none =>
    let ip := a / d
    if 0 < ip then
      let k := (natDigits ip).length
      let s0 := if 17 ≤ k then ip / 10 ^ (k - 17) else a * 10 ^ (17 - k) / d
      (stripZeros s0 s0, (k : Int))
    else
      let j := ((List.range (d + 1)).find? (fun j => d ≤ a * 10 ^ (j + 1))).getD 0
      let s0 := a * 10 ^ (17 + j) / d
      (stripZeros s0 s0, -(j : Int))

/-- Number::toString (radix 10) of the positive value `s × 10 ^ (n - k)`. -/
def formatDecimal (s : Nat) (n : Int) : Str :=
  let digits := natDigits s
  let k : Int := digits.length
  if k ≤ n ∧ n ≤ 21 then digits ++ List.replicate (n - k).toNat '0'
  else if 0 < n ∧ n ≤ 21 then digits.take n.toNat ++ '.' :: digits.drop n.toNat
  else if -6 < n ∧ n ≤ 0 then '0' :: '.' :: (List.replicate (-n).toNat '0' ++ digits)
  else
    let e := n - 1
    let sign := if e < 0 then '-' else '+'
    let mantissa := if k = 1 then digits else digits.take 1 ++ '.' :: digits.drop 1
    mantissa ++ 'e' :: sign :: natDigits e.natAbs

/-- Number::toString of the fraction `num / den`. -/
def formatRat (num : Int) (den : Nat) : Str :=
  if num = 0 then ['0']
  else
    let f := decimalForm num.natAbs den
    if num < 0 then '-' :: formatDecimal f.1 f.2 else formatDecimal f.1 f.2

/-- The string conversion of a Number, as in `"" + x`, in exact arithmetic:
every digit of a finite decimal expansion is printed, where the engine prints
the shortest digits that identify the IEEE double (17 at most); the two agree
on the integers below `2 ^ 53` and on short decimals such as `0.8`. -/
def numberToString : JSNumber → Str
  | .nan => ['N', 'a', 'N']
  | .fin q => formatRat q.num q.den

/-- `parseFloat(x)` for an argument that is already a Number: the argument is
converted to its string form and parsed back, which returns the same value. -/
def parseFloat (x : JSNumber) : JSNumber := x

/-! ## The metadata document and the raw inputs -/

/-- Error thrown by the engine. -/
inductive JSError where
  | typeError
  deriving DecidableEq

/-- The `scaler` object of `penaltis_meta.json`. -/
structure Scaler where
  numeric_cols : List Str
  mean : List ℚ
  scale : List ℚ

/-- The parsed `penaltis_meta.json`; the global `meta` is an `Option Meta`,
`none` while it is `null`. -/
structure Meta where
  feature_columns : List Str
  scaler : Option Scaler

/-- The argument `values` of `buildInputVector`, as `predictFromInputs` passes
it: three Numbers and the two strings read from the selectors. -/
structure Values where
  Velocidad_kmh : JSNumber
  Angulo_grados : JSNumber
  Distancia_Portero_m : JSNumber
  Presion_Partido : Str
  Pie_Dominante : Str

/-! ## The `row` object -/

/-- A value read from the `row` object. -/
inductive RowVal where
  | undefined
  | number (x : JSNumber)
  | string (s : Str)
  | object (text : Str)
  deriving DecidableEq

/-- The own properties of `row`, the latest assignment first. -/
abbrev Row := List (Str × RowVal)

/-- The properties a plain object inherits from `Object.prototype`, each with
the string conversion of its value (the rendering of native functions is the
one of V8). -/
def objectPrototype : List (Str × Str) :=
  [("constructor".data, "function Object() \x7b [native code] \x7d".data),
   ("__defineGetter__".data, "function __defineGetter__() \x7b [native code] \x7d".data),
   ("__defineSetter__".data, "function __defineSetter__() \x7b [native code] \x7d".data),
   ("hasOwnProperty".data, "function hasOwnProperty() \x7b [native code] \x7d".data),
   ("__lookupGetter__".data, "function __lookupGetter__() \x7b [native code] \x7d".data),
   ("__lookupSetter__".data, "function __lookupSetter__() \x7b [native code] \x7d".data),
   ("isPrototypeOf".data, "function isPrototypeOf() \x7b [native code] \x7d".data),
   ("propertyIsEnumerable".data,
      "function propertyIsEnumerable() \x7b [native code] \x7d".data),
   ("toString".data, "function toString() \x7b [native code] \x7d".data),
   ("valueOf".data, "function valueOf() \x7b [native code] \x7d".data),
   ("__proto__".data, "[object Object]".data),
   ("toLocaleString".data, "function toLocaleString() \x7b [native code] \x7d".data)]

/-- The assignment `row[key] = v`. -/
def rowSet (row : Row) (key : Str) (v : RowVal) : Row := (key, v) :: row

/-- The read `row[key]`: an own property, else an inherited one, else
`undefined`. -/
def rowGet (row : Row) (key : Str) : RowVal :=
  match row.lookup key with
  | some v => v
  | none =>
    match objectPrototype.lookup key with
    | some text => .object text
    | none => .undefined

/-- The string conversion `"" + v`. -/
def rowValToString : RowVal → Str
  | .undefined => "undefined".data
  | .number x => numberToString x
  | .string s => s
  | .object text => text

/-- The object `row` of `buildInputVector` after lines 55 to 63: the three
parsed numbers, and each categorical value that is truthy (a non-empty
string). -/
def mkRow (values : Values) : Row :=
  let row : Row := []
  let row := rowSet row "Velocidad_kmh".data (.number (parseFloat values.Velocidad_kmh))
  let row := rowSet row "Angulo_grados".data (.number (parseFloat values.Angulo_grados))
  let row := rowSet row "Distancia_Portero_m".data
    (.number (parseFloat values.Distancia_Portero_m))
  let row := if values.Presion_Partido ≠ [] then
    rowSet row "Presion_Partido".data (.string values.Presion_Partido) else row
  let row := if values.Pie_Dominante ≠ [] then
    rowSet row "Pie_Dominante".data (.string values.Pie_Dominante) else row
  row

/-! ## buildInputVector -/

/-- Lines 77 to 96 of `buildInputVector`, the attempt to resolve the
categorical column `c`: the vector after the push and the flag `matched`.
With no second segment after the split, `v.trim()` throws. -/
def matchColumn (row : Row) (vec : List JSNumber) (c : Str) :
    Except JSError (List JSNumber × Bool) :=
  if '=' ∈ c then
    match split '=' c with
    | k :: v :: _ =>
      let key := trim k
      let val := trim v
      if rowGet row key = .string val then .ok (vec ++ [.fin 1], true)
      else .ok (vec ++ [.fin 0], true)
    | _ => .error .typeError
  else
    let lastUnd := lastIndexOf '_' c
    if 0 < lastUnd then
      let key := substring c 0 lastUnd.toNat
      let val := substringFrom c (lastUnd.toNat + 1)
      if rowGet row key ≠ .undefined
          ∧ toLowerCase (rowValToString (rowGet row key)) = toLowerCase val then
        .ok (vec ++ [.fin 1], true)
      else .ok (vec ++ [.fin 0], true)
    else .ok (vec, false)

/-- The body of the loop of `buildInputVector` (lines 68 to 98) for the column
`c`: the vector after the pushes of this iteration.  In the numeric branch
`row` holds a Number under `c` (lines 57 to 59); a value of another kind, which
the typed vector cannot hold, is rendered `NaN`.  The unused `parts` and
`catName` of lines 73 and 74 are left out. -/
def pushColumn (row : Row) (vec : List JSNumber) (c : Str) : Except JSError (List JSNumber) :=
  if c = "Velocidad_kmh".data ∨ c = "Angulo_grados".data ∨ c = "Distancia_Portero_m".data then
    match rowGet row c with
    | .undefined => .ok (vec ++ [.fin 0])
    | .number x => .ok (vec ++ [x])
    | _ => .ok (vec ++ [.nan])
  else
    match matchColumn row vec c with
    | .error e => .error e
    | .ok (vec, matched) => if !matched then .ok (vec ++ [.fin 0]) else .ok vec

/-- Function `buildInputVector(values)` of script.js, the global `meta` made a
parameter.  Reading `meta.feature_columns` of a `null` meta throws. -/
def buildInputVector (meta : Option Meta) (values : Values) :
    Except JSError (List JSNumber) :=
  match meta with
  | none => throw .typeError
  | some m =>
    let cols := m.feature_columns
    let row := mkRow values
    cols.foldlM (pushColumn row) []

/-! ## scaleNumeric -/

/-- An array of Numbers; `none` is a hole. -/
abbrev JSArray := List (Option JSNumber)

/-- The read `a[idx]`: `none` (`undefined`) for a hole or an index past the
end. -/
def arrayGet (a : JSArray) (idx : Nat) : Option JSNumber := (a[idx]?).join

/-- The assignment `a[idx] = v`; an index past the end lengthens the array,
leaving holes in between. -/
def arraySet (a : JSArray) (idx : Nat) (v : JSNumber) : JSArray :=
  if idx < a.length then a.set idx (some v)
  else a ++ List.replicate (idx - a.length) none ++ [some v]

/-- ToNumber of an array read: `undefined` becomes `NaN`. -/
def toNumber : Option JSNumber → JSNumber
  | none => .nan
  | some x => x

/-- The read `means[i]` as the subtraction takes it: a read past the end of
`mean` is `undefined`, hence `NaN`. -/
def meanAt (s : Scaler) (i : Nat) : JSNumber :=
  match s.mean[i]? with
  | some mu => .fin mu
  | none => .nan

/-- The value `scales[i] || 1.0`: `1` for a zero or missing scale. -/
def scaleAt (s : Scaler) (i : Nat) : ℚ :=
  match s.scale[i]? with
  | some sc => if sc = 0 then 1 else sc
  | none => 1

/-- The body of the loop of `scaleNumeric` (lines 113 to 119) at index `i`. -/
def scaleStep (s : Scaler) (cols : List Str) (out : JSArray) (i : Nat) : JSArray :=
  match s.numeric_cols[i]? with
  | none => out
  | some colName =>
    let idx := indexOf colName cols
    if 0 ≤ idx then
      let mean := meanAt s i
      let scale := scaleAt s i
      arraySet out idx.toNat (((toNumber (arrayGet out idx.toNat)).sub mean).div (.fin scale))
    else out

/-- Function `scaleNumeric(vec)` of script.js, the global `meta` made a
parameter. -/
def scaleNumeric (meta : Option Meta) (vec : JSArray) : JSArray :=
  match meta with
  | none => vec
  | some m =>
    match m.scaler with
    | none => vec
    | some s => (List.range s.numeric_cols.length).foldl (scaleStep s m.feature_columns) vec

/-- The descriptor of the end-to-end scenario: three numeric columns followed
by the one-hot columns of the pressure level and of the dominant foot. -/
def canonicalColumns : List Str :=
  ["Velocidad_kmh".data, "Angulo_grados".data, "Distancia_Portero_m".data,
   "Presion_Partido_Alta".data, "Presion_Partido_Media".data, "Presion_Partido_Baja".data,
   "Pie_Dominante_Derecho".data, "Pie_Dominante_Izquierdo".data]

/-! ## The encoder rules in the words of the specification -/

/-- The raw categorical input stored under `key`, as the specification words
it: the pressure level under `Presion_Partido`, the dominant foot under
`Pie_Dominante`, nothing under any other key. -/
def categoricalInput (values : Values) (key : Str) : Option Str :=
  if key = "Presion_Partido".data then some values.Presion_Partido
  else if key = "Pie_Dominante".data then some values.Pie_Dominante
  else none

/-- Rule 1 of the CategoricalEncoder as the specification words it: the key is
the text before the `=`, the value the text after it, and the entry is 1
exactly when the raw value stored under the key equals the value exactly. -/
def specEqualsRule (values : Values) (c : Str) : JSNumber :=
  let key := c.takeWhile (fun ch => ch != '=')
  let value := (c.dropWhile (fun ch => ch != '=')).drop 1
  if categoricalInput values key = some value then .fin 1 else .fin 0

/-- Rule 2 of the CategoricalEncoder as the specification words it: the key is
the text before the last underscore, the value the text after it, and the
entry is 1 exactly when the raw categorical input stored under the key equals
the value case-insensitively. -/
def specUnderscoreRule (values : Values) (c : Str) : JSNumber :=
  let lastUnd := lastIndexOf '_' c
  if 0 ≤ lastUnd then
    match categoricalInput values (c.take lastUnd.toNat) with
    | some s =>
      if toLowerCase s = toLowerCase (c.drop (lastUnd.toNat + 1)) then .fin 1 else .fin 0
    | none => .fin 0
  else .fin 0

/-! ## What the row holds, by key -/

/-- The categorical value that `row` holds under `key`: the pressure level or
the dominant foot, when the value given is not the empty string. -/
def storedCategorical (values : Values) (key : Str) : Option Str :=
  if key = "Pie_Dominante".data ∧ values.Pie_Dominante ≠ [] then some values.Pie_Dominante
  else if key = "Presion_Partido".data ∧ values.Presion_Partido ≠ [] then
    some values.Presion_Partido
  else none

/-- The text that `row` holds under one of the five raw field names: a
non-empty categorical value, or a numeric input in its string form. -/
def storedText (values : Values) (key : Str) : Option Str :=
  match storedCategorical values key with
  | some s => some s
  | none =>
    if key = "Distancia_Portero_m".data then some (numberToString values.Distancia_Portero_m)
    else if key = "Angulo_grados".data then some (numberToString values.Angulo_grados)
    else if key = "Velocidad_kmh".data then some (numberToString values.Velocidad_kmh)
    else none

/-! ## buildInputVector over the string operations of the engine

`String.prototype.toLowerCase` also maps letters outside ASCII, and
Number::toString prints an IEEE double in its shortest round-trip form; the
definitions above fix the two to the models `toLowerCase` and `numberToString`.
Here they are the parameters `lower` and `numStr`, so that what is proved for
every `lower` and `numStr` holds for the operations of the engine. -/

/-- The string conversion `"" + v`, with `numStr` for Number::toString. -/
def rowValToStringWith (numStr : JSNumber → Str) : RowVal → Str
  | .undefined => "undefined".data
  | .number x => numStr x
  | .string s => s
  | .object text => text

/-- Lines 77 to 96 of `buildInputVector` as in `matchColumn`, with `lower` for
`toLowerCase()` and `numStr` for Number::toString. -/
def matchColumnWith (lower : Str → Str) (numStr : JSNumber → Str) (row : Row)
    (vec : List JSNumber) (c : Str) : Except JSError (List JSNumber × Bool) :=
  if '=' ∈ c then
    match split '=' c with
    | k :: v :: _ =>
      let key := trim k
      let val := trim v
      if rowGet row key = .string val then .ok (vec ++ [.fin 1], true)
      else .ok (vec ++ [.fin 0], true)
    | _ => .error .typeError
  else
    let lastUnd := lastIndexOf '_' c
    if 0 < lastUnd then
      let key := substring c 0 lastUnd.toNat
      let val := substringFrom c (lastUnd.toNat + 1)
      if rowGet row key ≠ .undefined
          ∧ lower (rowValToStringWith numStr (rowGet row key)) = lower val then
        .ok (vec ++ [.fin 1], true)
      else .ok (vec ++ [.fin 0], true)
    else .ok (vec, false)

/-- The body of the loop of `buildInputVector` (lines 68 to 98) as in
`pushColumn`, over `lower` and `numStr`. -/
def pushColumnWith (lower : Str → Str) (numStr : JSNumber → Str) (row : Row)
    (vec : List JSNumber) (c : Str) : Except JSError (List JSNumber) :=
  if c = "Velocidad_kmh".data ∨ c = "Angulo_grados".data ∨ c = "Distancia_Portero_m".data then
    match rowGet row c with
    | .undefined => .ok (vec ++ [.fin 0])
    | .number x => .ok (vec ++ [x])
    | _ => .ok (vec ++ [.nan])
  else
    match matchColumnWith lower numStr row vec c with
    | .error e => .error e
    | .ok (vec, matched) => if !matched then .ok (vec ++ [.fin 0]) else .ok vec

/-- Function `buildInputVector(values)` of script.js over `lower` and
`numStr`; `buildInputVector` is its instance at `toLowerCase` and
`numberToString`. -/
def buildInputVectorWith (lower : Str → Str) (numStr : JSNumber → Str) (meta : Option Meta)
    (values : Values) : Except JSError (List JSNumber) :=
  match meta with
  | none => throw .typeError
  | some m =>
    let cols := m.feature_columns
    let row := mkRow values
    cols.foldlM (pushColumnWith lower numStr row) []

/-- The text that `row` holds under one of the five raw field names, with
`numStr` for Number::toString: a non-empty categorical value, or a numeric
input in its string form. -/
def storedTextWith (numStr : JSNumber → Str) (values : Values) (key : Str) : Option Str :=
  match storedCategorical values key with
  | some s => some s
  | none =>
    if key = "Distancia_Portero_m".data then some (numStr values.Distancia_Portero_m)
    else if key = "Angulo_grados".data then some (numStr values.Angulo_grados)
    else if key = "Velocidad_kmh".data then some (numStr values.Velocidad_kmh)
    else none

/-! ## predictFromInputs -/

namespace JSNumber

/-- The test `isNaN(x)`. -/
def isNaN : JSNumber → Bool
  | nan => true
  | fin _ => false

/-- The comparison `a < b`, false when an operand is `NaN`. -/
def lt : JSNumber → JSNumber → Bool
  | fin a, fin b => decide (a < b)
  | _, _ => false

/-- The comparison `a > b`, false when an operand is `NaN`. -/
def gt (a b : JSNumber) : Bool := lt b a

/-- The comparison `a >= b`, false when an operand is `NaN`. -/
def ge : JSNumber → JSNumber → Bool
  | fin a, fin b => decide (b ≤ a)
  | _, _ => false

/-- The value is a number, not `NaN`, within the inclusive bounds `lo` and
`hi`. -/
def within : JSNumber → ℚ → ℚ → Prop
  | fin q, lo, hi => lo ≤ q ∧ q ≤ hi
  | nan, _, _ => False

instance decidableWithin (x : JSNumber) (lo hi : ℚ) : Decidable (within x lo hi) :=
  match x with
  | fin q => inferInstanceAs (Decidable (lo ≤ q ∧ q ≤ hi))
  | nan => inferInstanceAs (Decidable False)

end JSNumber

/-- The shape of the table `RANGES`: the pair `[min, max]` of each numeric
field. -/
structure Ranges where
  Velocidad_kmh : ℚ × ℚ
  Angulo_grados : ℚ × ℚ
  Distancia_Portero_m : ℚ × ℚ

/-- The constant `RANGES` of script.js (lines 12 to 16). -/
def RANGES : Ranges := ⟨(70, 115), (5, 45), (0.4, 1.2)⟩

/-- The text of a range error, the template literal of lines 134, 138 and 142:
the field label, then `fuera de rango (min–max)`. -/
def rangeMessage (label : Str) (bounds : ℚ × ℚ) : Str :=
  label ++ " fuera de rango (".data ++ numberToString (.fin bounds.1) ++ "–".data
    ++ numberToString (.fin bounds.2) ++ ")".data

/-- The values that `predictFromInputs` reads from the form (lines 126 to 130):
the three parsed numbers, `NaN` for a text that is no number, and the values of
the two selectors. -/
structure FormInputs where
  vel : JSNumber
  ang : JSNumber
  dist : JSNumber
  presion : Str
  pie : Str

/-- The range validation of `predictFromInputs` (lines 132 to 144): the
message of the first check that fails, `none` when the three checks pass. -/
def validateRanges (vel ang dist : JSNumber) : Option Str :=
  if vel.isNaN || vel.lt (.fin RANGES.Velocidad_kmh.1)
      || vel.gt (.fin RANGES.Velocidad_kmh.2) then
    some (rangeMessage "Velocidad".data RANGES.Velocidad_kmh)
  else if ang.isNaN || ang.lt (.fin RANGES.Angulo_grados.1)
      || ang.gt (.fin RANGES.Angulo_grados.2) then
    some (rangeMessage "Ángulo".data RANGES.Angulo_grados)
  else if dist.isNaN || dist.lt (.fin RANGES.Distancia_Portero_m.1)
      || dist.gt (.fin RANGES.Distancia_Portero_m.2) then
    some (rangeMessage "Distancia".data RANGES.Distancia_Portero_m)
  else none

/-- The loaded model as `predictFromInputs` uses it: the value `arr[0][0]` that
`model.predict` yields for the one input row. -/
structure Model where
  predict : JSArray → JSNumber

/-- What an invocation leaves on the page, or the error it throws: the message
of `showError`, or the result of `showResult`, whose text is the label, then
` — Probabilidad de gol: `, then `(prob*100).toFixed(1)` and `%`; the label and
the probability are kept. -/
inductive Outcome where
  | error (msg : Str)
  | result (label : Str) (prob : JSNumber)
  | thrown (e : JSError)
  deriving DecidableEq

/-- An invocation of `predictFromInputs`: what it shows, and the rows it handed
to `model.predict`, in order. -/
structure Run where
  outcome : Outcome
  predictCalls : List JSArray
  deriving DecidableEq

/-- Function `predictFromInputs()` of script.js, the globals `meta` and `model`
and the values of the form made parameters. -/
def predictFromInputs (meta : Option Meta) (model : Option Model) (inp : FormInputs) : Run :=
  match validateRanges inp.vel inp.ang inp.dist with
  | some msg => ⟨.error msg, []⟩
  | none =>
    match meta, model with
    | some m, some mdl =>
      match buildInputVector (some m) ⟨inp.vel, inp.ang, inp.dist, inp.presion, inp.pie⟩ with
      | .error e => ⟨.thrown e, []⟩
      | .ok rawVec =>
        let scaled := scaleNumeric (some m) (rawVec.map some)
        let prob := mdl.predict scaled
        let label := if prob.ge (.fin 0.5) then "GOL".data else "FALLADO".data
        ⟨.result label prob, [scaled]⟩
    | _, _ => ⟨.error "Modelo o metadatos no cargados.".data, []⟩

/-! ## The hard-coded variant, app.js -/

/-- Function `normalizar(valor, media, desviacion)` of app.js. -/
def normalizar (valor media desviacion : JSNumber) : JSNumber :=
  (valor.sub media).div desviacion

/-- The read `a[i]` of an array of numbers as arithmetic takes it: a read past
the end is `undefined`, hence `NaN`. -/
def numberAt (a : List ℚ) (i : Nat) : JSNumber :=
  match a[i]? with
  | some x => .fin x
  | none => .nan

/-- The range validation of `predecir` (lines 31 to 33 of app.js): the text of
the first alert, `none` when no check fires. -/
def predecirValidation (velocidad angulo distancia : JSNumber) : Option Str :=
  if velocidad.lt (.fin 60) || velocidad.gt (.fin 140) then
    some "Velocidad fuera del rango (60–140)".data
  else if angulo.lt (.fin 0) || angulo.gt (.fin 60) then
    some "Ángulo fuera del rango (0–60)".data
  else if distancia.lt (.fin 0.3) || distancia.gt (.fin 2) then
    some "Distancia fuera del rango (0.3–2)".data
  else none

/-- The vector `input` that `predecir` builds (lines 36 to 54 of app.js) from
the globals `mean` and `scale`, which `cargarModelo` reads from
`meta.scaler_mean` and `meta.scaler_scale`. -/
def predecirInput (mean scale : List ℚ) (velocidad angulo distancia : JSNumber)
    (presion pie : Str) : List JSNumber :=
  let Presion_Alta : JSNumber := if presion = "Alta".data then .fin 1 else .fin 0
  let Presion_Media : JSNumber := if presion = "Media".data then .fin 1 else .fin 0
  let Presion_Baja : JSNumber := if presion = "Baja".data then .fin 1 else .fin 0
  let Pie_Derecho : JSNumber := if pie = "Derecho".data then .fin 1 else .fin 0
  let Pie_Izquierdo : JSNumber := if pie = "Izquierdo".data then .fin 1 else .fin 0
  [normalizar velocidad (numberAt mean 0) (numberAt scale 0),
   normalizar angulo (numberAt mean 1) (numberAt scale 1),
   normalizar distancia (numberAt mean 2) (numberAt scale 2),
   Presion_Alta, Presion_Media, Presion_Baja, Pie_Derecho, Pie_Izquierdo]

/-! ## Lemmas on the string helpers -/

theorem split_ne_nil (sep : Char) (c : Str) : split sep c ≠ [] := by
  cases c with
  | nil => simp [split]
  | cons x xs =>
    simp only [split]
    split_ifs
    · simp
    · split <;> simp

theorem split_of_not_mem (sep : Char) (c : Str) (h : sep ∉ c) : split sep c = [c] := by
  induction c with
  | nil => rfl
  | cons x xs ih =>
    have hx : x ≠ sep := fun e => h (by simp [e])
    have hxs : sep ∉ xs := fun e => h (List.mem_cons_of_mem _ e)
    simp [split, hx, ih hxs]

theorem split_append (sep : Char) (k t : Str) (h : sep ∉ k) :
    split sep (k ++ sep :: t) = k :: split sep t := by
  induction k with
  | nil => simp [split]
  | cons x xs ih =>
    have hx : x ≠ sep := fun e => h (by simp [e])
    have hxs : sep ∉ xs := fun e => h (List.mem_cons_of_mem _ e)
    simp [split, hx, ih hxs]

theorem split_of_mem (sep : Char) (c : Str) (h : sep ∈ c) :
    ∃ k v rest, split sep c = k :: v :: rest := by
  obtain ⟨k, t, e, hk⟩ : ∃ k t, c = k ++ sep :: t ∧ sep ∉ k := by
    induction c with
    | nil => simp at h
    | cons x xs ih =>
      by_cases hx : x = sep
      · exact ⟨[], xs, by simp [hx], by simp⟩
      · have hm : sep ∈ xs := by
          rcases List.mem_cons.mp h with h1 | h1
          · exact absurd h1.symm hx
          · exact h1
        obtain ⟨k, t, e, hk⟩ := ih hm
        refine ⟨x :: k, t, by simp [e], ?_⟩
        intro hmem
        rcases List.mem_cons.mp hmem with h1 | h1
        · exact hx h1.symm
        · exact hk h1
  subst e
  rw [split_append sep k t hk]
  cases hs : split sep t with
  | nil => exact absurd hs (split_ne_nil sep t)
  | cons a as => exact ⟨k, a, as, rfl⟩

theorem lastIndexOf_of_not_mem (ch : Char) (s : Str) (h : ch ∉ s) : lastIndexOf ch s = -1 := by
  induction s with
  | nil => rfl
  | cons x xs ih =>
    have hx : x ≠ ch := fun e => h (by simp [e])
    have hxs : ch ∉ xs := fun e => h (List.mem_cons_of_mem _ e)
    simp [lastIndexOf, ih hxs, hx]

theorem lastIndexOf_append (ch : Char) (key val : Str) (h : ch ∉ val) :
    lastIndexOf ch (key ++ ch :: val) = key.length := by
  induction key with
  | nil => simp [lastIndexOf, lastIndexOf_of_not_mem ch val h]
  | cons x xs ih =>
    have e : lastIndexOf ch (x :: (xs ++ ch :: val))
        = if 0 ≤ lastIndexOf ch (xs ++ ch :: val) then lastIndexOf ch (xs ++ ch :: val) + 1
          else if x = ch then 0 else -1 := rfl
    rw [List.cons_append, e, ih, if_pos (by omega)]
    simp

theorem substring_append (key rest : Str) : substring (key ++ rest) 0 key.length = key := by
  simp [substring]

theorem substringFrom_append (key val : Str) (ch : Char) :
    substringFrom (key ++ ch :: val) (key.length + 1) = val := by
  simp [substringFrom]

/-! ## Lemmas on the row object -/

theorem lookup_cons_eq (key k : Str) (v : RowVal) (row : Row) :
    List.lookup key ((k, v) :: row) = if key = k then some v else List.lookup key row := by
  by_cases h : key = k
  · subst h; simp [List.lookup]
  · have hb : (key == k) = false := by simpa using h
    simp [List.lookup, hb, h]

theorem rowGet_mkRow (values : Values) (key : Str) :
    rowGet (mkRow values) key =
      if key = "Pie_Dominante".data ∧ values.Pie_Dominante ≠ [] then
        .string values.Pie_Dominante
      else if key = "Presion_Partido".data ∧ values.Presion_Partido ≠ [] then
        .string values.Presion_Partido
      else if key = "Distancia_Portero_m".data then .number values.Distancia_Portero_m
      else if key = "Angulo_grados".data then .number values.Angulo_grados
      else if key = "Velocidad_kmh".data then .number values.Velocidad_kmh
      else match objectPrototype.lookup key with
        | some text => .object text
        | none => .undefined := by
  have hnil : List.lookup key ([] : Row) = none := rfl
  unfold mkRow rowSet rowGet parseFloat
  by_cases h1 : values.Pie_Dominante = [] <;> by_cases h2 : values.Presion_Partido = [] <;>
    simp only [h1, h2, ne_eq, not_true_eq_false, not_false_eq_true, if_true, if_false,
      and_true, and_false, lookup_cons_eq, hnil] <;>
    split_ifs <;> rfl

/-! ## Lemmas on the loop of buildInputVector -/

theorem matchColumn_shape (row : Row) (c : Str) :
    (∃ x, ∀ vec, matchColumn row vec c = .ok (vec ++ [x], true))
      ∨ (∀ vec, matchColumn row vec c = .ok (vec, false)) := by
  unfold matchColumn
  by_cases he : '=' ∈ c
  · obtain ⟨k, v, rest, e⟩ := split_of_mem '=' c he
    left
    by_cases hr : rowGet row (trim k) = .string (trim v)
    · exact ⟨.fin 1, fun vec => by simp [he, e, hr]⟩
    · exact ⟨.fin 0, fun vec => by simp [he, e, hr]⟩
  · by_cases hl : 0 < lastIndexOf '_' c
    · left
      by_cases hc : rowGet row (substring c 0 (lastIndexOf '_' c).toNat) ≠ .undefined
          ∧ toLowerCase (rowValToString (rowGet row (substring c 0 (lastIndexOf '_' c).toNat)))
            = toLowerCase (substringFrom c ((lastIndexOf '_' c).toNat + 1))
      · exact ⟨.fin 1, fun vec => by simp only [he, hl, if_true, if_false, if_pos hc]⟩
      · exact ⟨.fin 0, fun vec => by simp only [he, hl, if_true, if_false, if_neg hc]⟩
    · right
      intro vec
      simp only [he, hl, if_false]

theorem pushColumn_shape (row : Row) (c : Str) :
    ∃ x, ∀ vec, pushColumn row vec c = .ok (vec ++ [x]) := by
  unfold pushColumn
  by_cases hn : c = "Velocidad_kmh".data ∨ c = "Angulo_grados".data
      ∨ c = "Distancia_Portero_m".data
  · cases hr : rowGet row c with
    | undefined => exact ⟨.fin 0, fun vec => by simp only [if_pos hn]⟩
    | number x => exact ⟨x, fun vec => by simp only [if_pos hn]⟩
    | string s => exact ⟨.nan, fun vec => by simp only [if_pos hn]⟩
    | object t => exact ⟨.nan, fun vec => by simp only [if_pos hn]⟩
  · rcases matchColumn_shape row c with ⟨x, hx⟩ | hx
    · exact ⟨x, fun vec => by simp [if_neg hn, hx vec]⟩
    · exact ⟨.fin 0, fun vec => by simp [if_neg hn, hx vec]⟩

theorem foldlM_pushColumn (row : Row) (cols : List Str) :
    ∃ vs : List JSNumber, vs.length = cols.length
      ∧ (∀ acc, cols.foldlM (pushColumn row) acc = .ok (acc ++ vs))
      ∧ ∀ i (h : i < cols.length), ∀ acc,
          pushColumn row acc (cols.get ⟨i, h⟩) = .ok (acc ++ [vs.getD i .nan]) := by
  induction cols with
  | nil => exact ⟨[], rfl, fun acc => by simp [pure, Except.pure], fun i h => absurd h (by simp)⟩
  | cons c cs ih =>
    obtain ⟨x, hx⟩ := pushColumn_shape row c
    obtain ⟨vs, hlen, hfold, hget⟩ := ih
    refine ⟨x :: vs, by simp [hlen], ?_, ?_⟩
    · intro acc
      rw [List.foldlM_cons, hx acc]
      show cs.foldlM (pushColumn row) (acc ++ [x]) = _
      rw [hfold]
      simp
    · intro i h acc
      cases i with
      | zero => simpa using hx acc
      | succ j =>
        have hj : j < cs.length := by simpa using h
        simpa using hget j hj acc

theorem buildInputVector_entries (m : Meta) (values : Values) :
    ∃ vec : List JSNumber, buildInputVector (some m) values = .ok vec
      ∧ vec.length = m.feature_columns.length
      ∧ ∀ i (h : i < m.feature_columns.length), ∀ acc,
          pushColumn (mkRow values) acc (m.feature_columns.get ⟨i, h⟩)
            = .ok (acc ++ [vec.getD i .nan]) := by
  obtain ⟨vs, hlen, hfold, hget⟩ := foldlM_pushColumn (mkRow values) m.feature_columns
  exact ⟨vs, by simpa [buildInputVector] using hfold [], hlen, hget⟩

theorem buildInputVector_sem (m : Meta) (values : Values) :
    ∃ vec : List JSNumber, buildInputVector (some m) values = .ok vec
      ∧ vec.length = m.feature_columns.length
      ∧ ∀ i (h : i < m.feature_columns.length) (x : JSNumber),
          pushColumn (mkRow values) [] (m.feature_columns.get ⟨i, h⟩) = .ok [x] →
          vec[i]? = some x := by
  obtain ⟨vec, hb, hlen, hget⟩ := buildInputVector_entries m values
  refine ⟨vec, hb, hlen, ?_⟩
  intro i h x hx
  have h1 := hget i h []
  rw [hx] at h1
  have h2 : x = vec.getD i .nan := by simpa using h1
  have hi : i < vec.length := by omega
  rw [h2, List.getD_eq_getElem?_getD, List.getElem?_eq_getElem hi]
  simp

theorem rowGet_storedCategorical (values : Values) (key val : Str) :
    rowGet (mkRow values) key = .string val ↔ storedCategorical values key = some val := by
  rw [rowGet_mkRow]
  unfold storedCategorical
  split_ifs <;> simp
  split <;> simp

theorem rowGet_storedText (values : Values) (key : Str)
    (hproto : objectPrototype.lookup key = none) :
    (storedText values key = none ∧ rowGet (mkRow values) key = .undefined)
      ∨ ∃ s, storedText values key = some s ∧ rowGet (mkRow values) key ≠ .undefined
          ∧ rowValToString (rowGet (mkRow values) key) = s := by
  rw [rowGet_mkRow]
  unfold storedText storedCategorical
  split_ifs <;> simp [hproto, rowValToString]

theorem underscore_value (values : Values) (key val : Str)
    (hproto : objectPrototype.lookup key = none) :
    (if key ≠ [] ∧ rowGet (mkRow values) key ≠ .undefined
          ∧ toLowerCase (rowValToString (rowGet (mkRow values) key)) = toLowerCase val
        then JSNumber.fin 1 else JSNumber.fin 0)
      = match storedText values key with
        | some s => if toLowerCase s = toLowerCase val then .fin 1 else .fin 0
        | none => .fin 0 := by
  rcases rowGet_storedText values key hproto with ⟨h1, h2⟩ | ⟨s, h1, h2, h3⟩
  · simp [h1, h2]
  · have hk : key ≠ [] := by
      rintro rfl
      exact h2 (by rw [rowGet_mkRow]; rfl)
    simp [h1, h2, h3, hk]

theorem not_numeric_of_mem_eq (c : Str) (h : '=' ∈ c) :
    ¬ (c = "Velocidad_kmh".data ∨ c = "Angulo_grados".data ∨ c = "Distancia_Portero_m".data) := by
  rintro (e | e | e) <;> subst e <;> revert h <;> decide

theorem pushColumn_numeric (values : Values) (acc : List JSNumber) (c : Str)
    (hn : c = "Velocidad_kmh".data ∨ c = "Angulo_grados".data ∨ c = "Distancia_Portero_m".data) :
    pushColumn (mkRow values) acc c = .ok (acc ++ [
      if c = "Velocidad_kmh".data then values.Velocidad_kmh
      else if c = "Angulo_grados".data then values.Angulo_grados
      else values.Distancia_Portero_m]) := by
  unfold pushColumn
  rw [if_pos hn, rowGet_mkRow]
  rcases hn with e | e | e <;> subst e <;> rfl

theorem pushColumn_equals (row : Row) (acc : List JSNumber) (k v rest : Str)
    (hk : '=' ∉ k) (hv : '=' ∉ v) (hrest : rest = [] ∨ ∃ r, rest = '=' :: r) :
    pushColumn row acc (k ++ '=' :: (v ++ rest))
      = .ok (acc ++ [if rowGet row (trim k) = .string (trim v) then .fin 1 else .fin 0]) := by
  have hmem : '=' ∈ k ++ '=' :: (v ++ rest) := by simp
  have hs : ∃ tl, split '=' (k ++ '=' :: (v ++ rest)) = k :: v :: tl := by
    rw [split_append '=' k _ hk]
    rcases hrest with e | ⟨r, e⟩
    · subst e
      rw [List.append_nil, split_of_not_mem '=' v hv]
      exact ⟨[], rfl⟩
    · subst e
      rw [split_append '=' v r hv]
      exact ⟨_, rfl⟩
  obtain ⟨tl, hs⟩ := hs
  unfold pushColumn matchColumn
  rw [if_neg (not_numeric_of_mem_eq _ hmem), if_pos hmem, hs]
  by_cases hr : rowGet row (trim k) = .string (trim v) <;> simp [hr]

theorem pushColumn_underscore (row : Row) (acc : List JSNumber) (key val : Str)
    (hval : '_' ∉ val) (heq : '=' ∉ key ++ '_' :: val)
    (hnum : ¬ (key ++ '_' :: val = "Velocidad_kmh".data ∨ key ++ '_' :: val = "Angulo_grados".data
      ∨ key ++ '_' :: val = "Distancia_Portero_m".data)) :
    pushColumn row acc (key ++ '_' :: val)
      = .ok (acc ++ [if key ≠ [] ∧ rowGet row key ≠ .undefined
          ∧ toLowerCase (rowValToString (rowGet row key)) = toLowerCase val
        then .fin 1 else .fin 0]) := by
  unfold pushColumn matchColumn
  rw [if_neg hnum, if_neg heq]
  simp only [lastIndexOf_append '_' key val hval]
  by_cases hk : key = []
  · subst hk
    simp
  · have hpos : (0 : Int) < (key.length : Int) := by
      have := List.length_pos.mpr hk
      omega
    simp only [hpos, if_true, Int.toNat_ofNat, substring_append, substringFrom_append]
    by_cases hc : rowGet row key ≠ .undefined
        ∧ toLowerCase (rowValToString (rowGet row key)) = toLowerCase val
    · rw [if_pos hc, if_pos ⟨hk, hc⟩]; simp
    · rw [if_neg hc, if_neg (fun h => hc h.2)]; simp

theorem pushColumn_no_underscore (row : Row) (acc : List JSNumber) (c : Str)
    (hund : '_' ∉ c) (heq : '=' ∉ c) :
    pushColumn row acc c = .ok (acc ++ [.fin 0]) := by
  have hnum : ¬ (c = "Velocidad_kmh".data ∨ c = "Angulo_grados".data
      ∨ c = "Distancia_Portero_m".data) := by
    rintro (e | e | e) <;> subst e <;> revert hund <;> decide
  unfold pushColumn matchColumn
  rw [if_neg hnum, if_neg heq]
  simp [lastIndexOf_of_not_mem '_' c hund]

/-! ## Claims on buildInputVector -/

/-- C1: for the canonical descriptor and every velocity, angle, distance,
pressure level among Alta, Media, Baja and foot among Derecho, Izquierdo,
`buildInputVector` returns the three raw numbers followed by the one-hot
encoding of the pressure level and of the foot. -/
theorem buildInputVector_canonical (v a d : JSNumber) (p f : Str) (s : Option Scaler)
    (hp : p = "Alta".data ∨ p = "Media".data ∨ p = "Baja".data)
    (hf : f = "Derecho".data ∨ f = "Izquierdo".data) :
    buildInputVector (some ⟨canonicalColumns, s⟩) ⟨v, a, d, p, f⟩
      = .ok [v, a, d,
          if p = "Alta".data then .fin 1 else .fin 0,
          if p = "Media".data then .fin 1 else .fin 0,
          if p = "Baja".data then .fin 1 else .fin 0,
          if f = "Derecho".data then .fin 1 else .fin 0,
          if f = "Izquierdo".data then .fin 1 else .fin 0] := by
  rcases hp with e | e | e <;> rcases hf with e' | e' <;> subst e <;> subst e' <;> rfl

/-- C1, the scenario of the specification: velocity 95, angle 20, distance
0.8, pressure Alta and foot Derecho give `[95, 20, 0.8, 1, 0, 0, 1, 0]`. -/
theorem buildInputVector_canonical_scenario :
    buildInputVector (some ⟨canonicalColumns, none⟩)
        ⟨.fin 95, .fin 20, .fin 0.8, "Alta".data, "Derecho".data⟩
      = .ok [.fin 95, .fin 20, .fin 0.8, .fin 1, .fin 0, .fin 0, .fin 1, .fin 0] :=
  buildInputVector_canonical (.fin 95) (.fin 20) (.fin 0.8) "Alta".data "Derecho".data none
    (Or.inl rfl) (Or.inl rfl)

/-- C2: for every descriptor and raw input `buildInputVector` returns a vector
with one entry per feature column, entry `i` being the value that the loop
body pushes for column `i`. -/
theorem buildInputVector_length_order (m : Meta) (values : Values) :
    ∃ vec : List JSNumber, buildInputVector (some m) values = .ok vec
      ∧ vec.length = m.feature_columns.length
      ∧ ∀ i (h : i < m.feature_columns.length), ∃ x, vec[i]? = some x
          ∧ pushColumn (mkRow values) [] (m.feature_columns.get ⟨i, h⟩) = .ok [x] := by
  obtain ⟨vec, hb, hlen, hget⟩ := buildInputVector_sem m values
  refine ⟨vec, hb, hlen, ?_⟩
  intro i h
  obtain ⟨x, hx⟩ := pushColumn_shape (mkRow values) (m.feature_columns.get ⟨i, h⟩)
  have hx0 : pushColumn (mkRow values) [] (m.feature_columns.get ⟨i, h⟩) = .ok [x] := by
    simpa using hx []
  exact ⟨x, hget i h x hx0, hx0⟩

/-- C3: at every position whose column name is exactly `Velocidad_kmh`,
`Angulo_grados` or `Distancia_Portero_m`, the entry is that field's raw numeric
input, unchanged. -/
theorem buildInputVector_numeric_positions (m : Meta) (values : Values) :
    ∃ vec : List JSNumber, buildInputVector (some m) values = .ok vec
      ∧ ∀ i (h : i < m.feature_columns.length),
          (m.feature_columns.get ⟨i, h⟩ = "Velocidad_kmh".data →
            vec[i]? = some values.Velocidad_kmh)
          ∧ (m.feature_columns.get ⟨i, h⟩ = "Angulo_grados".data →
            vec[i]? = some values.Angulo_grados)
          ∧ (m.feature_columns.get ⟨i, h⟩ = "Distancia_Portero_m".data →
            vec[i]? = some values.Distancia_Portero_m) := by
  obtain ⟨vec, hb, _, hget⟩ := buildInputVector_sem m values
  refine ⟨vec, hb, ?_⟩
  intro i h
  refine ⟨fun e => hget i h _ ?_, fun e => hget i h _ ?_, fun e => hget i h _ ?_⟩
  · rw [pushColumn_numeric values [] _ (Or.inl e), e]; rfl
  · rw [pushColumn_numeric values [] _ (Or.inr (Or.inl e)), e]; rfl
  · rw [pushColumn_numeric values [] _ (Or.inr (Or.inr e)), e]; rfl

/-- C4 fails as stated: with angle 20 the column `Angulo_grados_20` gets 1,
although no categorical input is stored under the key `Angulo_grados`. -/
theorem underscore_rule_counterexample :
    buildInputVector (some ⟨["Angulo_grados_20".data], none⟩)
        ⟨.fin 95, .fin 20, .fin 1, "Alta".data, "Derecho".data⟩ = .ok [.fin 1]
      ∧ specUnderscoreRule ⟨.fin 95, .fin 20, .fin 1, "Alta".data, "Derecho".data⟩
          "Angulo_grados_20".data = .fin 0 := by
  constructor <;> rfl

/-- C5 fails as stated: the column `Presion_Partido= Alta` gets 1 for the
pressure level `Alta`, although the text after the `=` is ` Alta`, which is not
exactly the stored value. -/
theorem equals_rule_counterexample :
    buildInputVector (some ⟨["Presion_Partido= Alta".data], none⟩)
        ⟨.fin 95, .fin 20, .fin 1, "Alta".data, "Derecho".data⟩ = .ok [.fin 1]
      ∧ specEqualsRule ⟨.fin 95, .fin 20, .fin 1, "Alta".data, "Derecho".data⟩
          "Presion_Partido= Alta".data = .fin 0 := by
  constructor <;> rfl

/-- C5 as amended: for a column `k=v` or `k=v=...` (`k` and `v` without `=`),
the entry is 1 exactly when `row` holds a non-empty categorical value under the
trimmed `k` and that value equals the trimmed `v` exactly, and 0 otherwise. -/
theorem equals_column_entry (m : Meta) (values : Values) :
    ∃ vec : List JSNumber, buildInputVector (some m) values = .ok vec
      ∧ ∀ i (h : i < m.feature_columns.length) (k v rest : Str),
          m.feature_columns.get ⟨i, h⟩ = k ++ '=' :: (v ++ rest) → '=' ∉ k → '=' ∉ v →
          (rest = [] ∨ ∃ r, rest = '=' :: r) →
          vec[i]? = some (if storedCategorical values (trim k) = some (trim v)
            then .fin 1 else .fin 0) := by
  obtain ⟨vec, hb, _, hget⟩ := buildInputVector_sem m values
  refine ⟨vec, hb, ?_⟩
  intro i h k v rest hc hk hv hrest
  apply hget i h
  rw [hc, pushColumn_equals _ [] k v rest hk hv hrest]
  simp only [rowGet_storedCategorical]
  rfl

/-- C5, the example of the specification: the column `Presion_Partido=Alta`
gets 1 for the pressure level `Alta` and 0 for `Media`. -/
theorem equals_column_example :
    (∃ vec : List JSNumber,
      buildInputVector (some ⟨["Presion_Partido=Alta".data], none⟩)
        ⟨.fin 95, .fin 20, .fin 1, "Alta".data, "Derecho".data⟩ = .ok vec
      ∧ vec[0]? = some (.fin 1))
    ∧ ∃ vec : List JSNumber,
      buildInputVector (some ⟨["Presion_Partido=Alta".data], none⟩)
        ⟨.fin 95, .fin 20, .fin 1, "Media".data, "Derecho".data⟩ = .ok vec
      ∧ vec[0]? = some (.fin 0) := by
  constructor
  · obtain ⟨vec, hb, hv⟩ := equals_column_entry ⟨["Presion_Partido=Alta".data], none⟩
      ⟨.fin 95, .fin 20, .fin 1, "Alta".data, "Derecho".data⟩
    refine ⟨vec, hb, ?_⟩
    rw [hv 0 (by decide) "Presion_Partido".data "Alta".data [] rfl (by decide) (by decide)
      (Or.inl rfl)]
    rfl
  · obtain ⟨vec, hb, hv⟩ := equals_column_entry ⟨["Presion_Partido=Alta".data], none⟩
      ⟨.fin 95, .fin 20, .fin 1, "Media".data, "Derecho".data⟩
    refine ⟨vec, hb, ?_⟩
    rw [hv 0 (by decide) "Presion_Partido".data "Alta".data [] rfl (by decide) (by decide)
      (Or.inl rfl)]
    rfl

/-- C6 fails as stated: with velocity 95 the column `Velocidad_kmh_95`, whose
key `Velocidad_kmh` is neither `Presion_Partido` nor `Pie_Dominante`, gets 1. -/
theorem unknown_key_counterexample :
    buildInputVector (some ⟨["Velocidad_kmh_95".data], none⟩)
        ⟨.fin 95, .fin 20, .fin 1, "Alta".data, "Derecho".data⟩ = .ok [.fin 1]
      ∧ "Velocidad_kmh_95".data = "Velocidad_kmh".data ++ '_' :: "95".data
      ∧ "Velocidad_kmh".data ≠ "Presion_Partido".data
      ∧ "Velocidad_kmh".data ≠ "Pie_Dominante".data := by
  refine ⟨rfl, rfl, by decide, by decide⟩

/-- C6 as amended: a column `k=v...` whose trimmed key is neither
`Presion_Partido` nor `Pie_Dominante` gets 0; a column `key_val` (no `=`, not a
numeric field name) whose key is none of the five raw field names and no
property inherited from `Object.prototype` gets 0; a column with neither `=`
nor underscore gets 0. -/
theorem unknown_key_entry (m : Meta) (values : Values) :
    ∃ vec : List JSNumber, buildInputVector (some m) values = .ok vec
      ∧ ∀ i (h : i < m.feature_columns.length),
          (∀ k v rest : Str, m.feature_columns.get ⟨i, h⟩ = k ++ '=' :: (v ++ rest) →
            '=' ∉ k → '=' ∉ v → (rest = [] ∨ ∃ r, rest = '=' :: r) →
            trim k ≠ "Presion_Partido".data → trim k ≠ "Pie_Dominante".data →
            vec[i]? = some (.fin 0))
          ∧ (∀ key val : Str, m.feature_columns.get ⟨i, h⟩ = key ++ '_' :: val → '_' ∉ val →
            '=' ∉ key ++ '_' :: val →
            ¬ (key ++ '_' :: val = "Velocidad_kmh".data
              ∨ key ++ '_' :: val = "Angulo_grados".data
              ∨ key ++ '_' :: val = "Distancia_Portero_m".data) →
            key ∉ ["Velocidad_kmh".data, "Angulo_grados".data, "Distancia_Portero_m".data,
              "Presion_Partido".data, "Pie_Dominante".data] →
            objectPrototype.lookup key = none →
            vec[i]? = some (.fin 0))
          ∧ ('_' ∉ m.feature_columns.get ⟨i, h⟩ → '=' ∉ m.feature_columns.get ⟨i, h⟩ →
            vec[i]? = some (.fin 0)) := by
  obtain ⟨vec, hb, _, hget⟩ := buildInputVector_sem m values
  refine ⟨vec, hb, ?_⟩
  intro i h
  refine ⟨?_, ?_, ?_⟩
  · intro k v rest hc hk hv hrest h1 h2
    apply hget i h
    rw [hc, pushColumn_equals _ [] k v rest hk hv hrest]
    have hs : storedCategorical values (trim k) = none := by
      unfold storedCategorical
      simp [h1, h2]
    simp [rowGet_storedCategorical, hs]
  · intro key val hc hval heq hnum hkey hproto
    apply hget i h
    rw [hc, pushColumn_underscore _ [] key val hval heq hnum,
      underscore_value values key val hproto]
    have hs : storedText values key = none := by
      simp only [List.mem_cons, List.mem_singleton, not_or, List.not_mem_nil, or_false] at hkey
      unfold storedText storedCategorical
      simp [hkey.1, hkey.2.1, hkey.2.2.1, hkey.2.2.2.1, hkey.2.2.2.2]
    simp [hs]
  · intro hund heq
    apply hget i h
    rw [pushColumn_no_underscore _ [] _ hund heq]
    rfl

/-- C6, an instance: the column `Equipo_Local`, whose key names no raw field,
gets 0. -/
theorem unknown_key_example :
    ∃ vec : List JSNumber,
      buildInputVector (some ⟨["Equipo_Local".data], none⟩)
        ⟨.fin 95, .fin 20, .fin 1, "Local".data, "Local".data⟩ = .ok vec
      ∧ vec[0]? = some (.fin 0) := by
  obtain ⟨vec, hb, hv⟩ := unknown_key_entry ⟨["Equipo_Local".data], none⟩
    ⟨.fin 95, .fin 20, .fin 1, "Local".data, "Local".data⟩
  exact ⟨vec, hb, (hv 0 (by decide)).2.1 "Equipo".data "Local".data rfl (by decide) (by decide)
    (by decide) (by decide) (by decide)⟩

/-! ## Lemmas on scaleNumeric -/

theorem indexOf_ge (name : Str) (cols : List Str) : -1 ≤ indexOf name cols := by
  induction cols with
  | nil => simp [indexOf]
  | cons c cs ih =>
    simp only [indexOf]
    split_ifs <;> omega

theorem indexOf_get (name : Str) (cols : List Str) (h : 0 ≤ indexOf name cols) :
    cols[(indexOf name cols).toNat]? = some name := by
  induction cols with
  | nil => simp [indexOf] at h
  | cons c cs ih =>
    simp only [indexOf] at h ⊢
    by_cases hc : c = name
    · simp [hc]
    · rw [if_neg hc] at h ⊢
      by_cases hr : 0 ≤ indexOf name cs
      · rw [if_pos hr]
        have e : (indexOf name cs + 1).toNat = (indexOf name cs).toNat + 1 := by omega
        rw [e, List.getElem?_cons_succ]
        exact ih hr
      · rw [if_neg hr] at h
        omega

theorem indexOf_lt (name : Str) (cols : List Str) (h : 0 ≤ indexOf name cols) :
    (indexOf name cols).toNat < cols.length := by
  have := indexOf_get name cols h
  by_contra hc
  rw [List.getElem?_eq_none (by omega)] at this
  simp at this

theorem indexOf_of_nodup (name : Str) (cols : List Str) (p : Nat) (hnd : cols.Nodup)
    (hp : cols[p]? = some name) : indexOf name cols = p := by
  induction cols generalizing p with
  | nil => simp at hp
  | cons c cs ih =>
    have hnd' := List.nodup_cons.mp hnd
    simp only [indexOf]
    cases p with
    | zero =>
      simp at hp
      simp [hp]
    | succ q =>
      rw [List.getElem?_cons_succ] at hp
      have hmem : name ∈ cs := List.getElem?_mem hp
      have hc : c ≠ name := fun e => hnd'.1 (e ▸ hmem)
      rw [if_neg hc, ih q hnd'.2 hp]
      simp

theorem arraySet_length (a : JSArray) (idx : Nat) (v : JSNumber) (h : idx < a.length) :
    (arraySet a idx v).length = a.length := by
  simp [arraySet, h]

theorem arraySet_get (a : JSArray) (idx p : Nat) (v : JSNumber) (h : idx < a.length) :
    (arraySet a idx v)[p]? = if p = idx then some (some v) else a[p]? := by
  simp only [arraySet, h, if_true]
  by_cases hp : p = idx
  · subst hp
    simp [h]
  · rw [if_neg hp, List.getElem?_set_ne (Ne.symm hp)]

theorem scaleStep_length (s : Scaler) (cols : List Str) (out : JSArray) (i : Nat)
    (h : cols.length ≤ out.length) : (scaleStep s cols out i).length = out.length := by
  unfold scaleStep
  split
  · rfl
  · next name _ =>
    by_cases hi : 0 ≤ indexOf name cols
    · simp only [hi, if_true]
      exact arraySet_length _ _ _ (by have := indexOf_lt name cols hi; omega)
    · simp only [hi, if_false]

theorem scaleStep_get_ne (s : Scaler) (cols : List Str) (out : JSArray) (i p : Nat)
    (h : cols.length ≤ out.length)
    (hne : ∀ name, s.numeric_cols[i]? = some name → indexOf name cols ≠ (p : Int)) :
    (scaleStep s cols out i)[p]? = out[p]? := by
  unfold scaleStep
  split
  · rfl
  · next name hname =>
    by_cases hi : 0 ≤ indexOf name cols
    · simp only [hi, if_true]
      rw [arraySet_get _ _ _ _ (by have := indexOf_lt name cols hi; omega)]
      have := hne name hname
      rw [if_neg (by omega)]
    · simp only [hi, if_false]

theorem scaleStep_get_eq (s : Scaler) (cols : List Str) (out : JSArray) (i p : Nat)
    (name : Str) (h : cols.length ≤ out.length) (hname : s.numeric_cols[i]? = some name)
    (hp : indexOf name cols = (p : Int)) :
    (scaleStep s cols out i)[p]?
      = some (some (((toNumber (arrayGet out p)).sub (meanAt s i)).div (.fin (scaleAt s i)))) := by
  have hi : 0 ≤ indexOf name cols := by omega
  have hlt := indexOf_lt name cols hi
  have e : (indexOf name cols).toNat = p := by omega
  unfold scaleStep
  simp only [hname, hi, if_true, e]
  rw [arraySet_get _ _ _ _ (by omega), if_pos rfl]

/-- One more iteration of the loop of `scaleNumeric` is one more `scaleStep`. -/
theorem scaleLoop_succ (s : Scaler) (cols : List Str) (vec : JSArray) (n : Nat) :
    (List.range (n + 1)).foldl (scaleStep s cols) vec
      = scaleStep s cols ((List.range n).foldl (scaleStep s cols) vec) n := by
  rw [List.range_succ, List.foldl_append]
  rfl

theorem scaleLoop_length (s : Scaler) (cols : List Str) (vec : JSArray) (n : Nat)
    (h : cols.length ≤ vec.length) :
    ((List.range n).foldl (scaleStep s cols) vec).length = vec.length := by
  induction n with
  | zero => rfl
  | succ n ih => rw [scaleLoop_succ, scaleStep_length _ _ _ _ (by omega), ih]

theorem scaleLoop_frame (s : Scaler) (cols : List Str) (vec : JSArray) (n p : Nat)
    (h : cols.length ≤ vec.length)
    (hne : ∀ i name, i < n → s.numeric_cols[i]? = some name → indexOf name cols ≠ (p : Int)) :
    ((List.range n).foldl (scaleStep s cols) vec)[p]? = vec[p]? := by
  induction n with
  | zero => rfl
  | succ n ih =>
    rw [scaleLoop_succ, scaleStep_get_ne _ _ _ _ _
      (by rw [scaleLoop_length _ _ _ _ h]; exact h)
      (fun name hname => hne n name (by omega) hname)]
    exact ih (fun i name hi hname => hne i name (by omega) hname)

theorem scaleLoop_scaled (s : Scaler) (cols : List Str) (vec : JSArray) (n i p : Nat)
    (name : Str) (h : cols.length ≤ vec.length) (hnd : s.numeric_cols.Nodup) (hi : i < n)
    (hname : s.numeric_cols[i]? = some name) (hp : indexOf name cols = (p : Int)) :
    ((List.range n).foldl (scaleStep s cols) vec)[p]?
      = some (some (((toNumber (arrayGet vec p)).sub (meanAt s i)).div (.fin (scaleAt s i)))) := by
  have other : ∀ j name', j ≠ i → s.numeric_cols[j]? = some name' →
      indexOf name' cols ≠ (p : Int) := by
    intro j name' hj hname' hp'
    have h0 : 0 ≤ indexOf name cols := by omega
    have h0' : 0 ≤ indexOf name' cols := by omega
    have e1 := indexOf_get name cols h0
    have e2 := indexOf_get name' cols h0'
    rw [hp] at e1
    rw [hp'] at e2
    have : name = name' := by
      rw [e1] at e2
      exact Option.some.inj e2
    subst this
    obtain ⟨hj1, hj2⟩ := List.getElem?_eq_some.mp hname'
    obtain ⟨hi1, hi2⟩ := List.getElem?_eq_some.mp hname
    exact hj ((List.Nodup.getElem_inj_iff hnd).mp (hj2.trans hi2.symm))
  induction n with
  | zero => omega
  | succ n ih =>
    rw [scaleLoop_succ]
    have hl : cols.length ≤ ((List.range n).foldl (scaleStep s cols) vec).length := by
      rw [scaleLoop_length _ _ _ _ h]; exact h
    by_cases hin : i = n
    · subst hin
      rw [scaleStep_get_eq _ _ _ _ _ name hl hname hp]
      have hfr := scaleLoop_frame s cols vec i p h
        (fun j name' hj hname' => other j name' (by omega) hname')
      simp only [arrayGet, hfr]
    · rw [scaleStep_get_ne _ _ _ _ _ hl (fun name' hname' => other n name' (Ne.symm hin) hname')]
      exact ih (by omega)

/-! ## Claims on scaleNumeric -/

/-- C7 fails as stated: with `numeric_cols = [Velocidad_kmh, Velocidad_kmh]`,
`mean = [1, 1]`, `scale = [1, 1]` and the unique feature column `Velocidad_kmh`
(equal lengths, every numeric name among the feature columns) the vector `[5]`
becomes `[3]`, not `(5 - 1) / 1`. -/
theorem scaleNumeric_scaled_counterexample :
    scaleNumeric
        (some ⟨["Velocidad_kmh".data],
          some ⟨["Velocidad_kmh".data, "Velocidad_kmh".data], [1, 1], [1, 1]⟩⟩)
        [some (.fin 5)] = [some (.fin 3)]
      ∧ JSNumber.fin 3 ≠ .fin ((5 - 1) / 1)
      ∧ ["Velocidad_kmh".data].Nodup
      ∧ ∀ name ∈ ["Velocidad_kmh".data, "Velocidad_kmh".data], name ∈ ["Velocidad_kmh".data] := by
  refine ⟨?_, ?_, by decide, by decide⟩
  · have hr : List.range 2 = [0, 1] := by decide
    simp only [scaleNumeric, List.length_cons, List.length_nil, hr, List.foldl_cons,
      List.foldl_nil]
    have h0 : indexOf "Velocidad_kmh".data ["Velocidad_kmh".data] = 0 := by decide
    simp [scaleStep, h0, arraySet, arrayGet, toNumber, meanAt, scaleAt, JSNumber.sub,
      JSNumber.div]
    norm_num
  · intro h
    have := JSNumber.fin.inj h
    norm_num at this

theorem scaleNumeric_scaled_at (cols : List Str) (s : Scaler) (vec : JSArray)
    (hnd : s.numeric_cols.Nodup) (hvec : vec.length = cols.length)
    (i p : Nat) (name : Str) (mu sc : ℚ) (hname : s.numeric_cols[i]? = some name)
    (hidx : indexOf name cols = (p : Int)) (hmu : s.mean[i]? = some mu)
    (hsc : s.scale[i]? = some sc) :
    (scaleNumeric (some ⟨cols, some s⟩) vec)[p]?
      = some (some (((toNumber (arrayGet vec p)).sub (.fin mu)).div
          (.fin (if sc = 0 then 1 else sc)))) := by
  have hi : i < s.numeric_cols.length := (List.getElem?_eq_some.mp hname).1
  have main := scaleLoop_scaled s cols vec s.numeric_cols.length i p name (by omega) hnd hi
    hname hidx
  have hm : meanAt s i = .fin mu := by simp [meanAt, hmu]
  have hs : scaleAt s i = if sc = 0 then 1 else sc := by simp [scaleAt, hsc]
  rw [hm, hs] at main
  exact main

/-- C7 as amended: when moreover `numeric_cols` has no repeated name, each
`numeric_cols[i]` has a position `p` in the unique `feature_columns`, a mean
and a scale, and `out[p] = (vec[p] - mean[i]) / (scale[i] == 0 ? 1 : scale[i])`,
the divisor never being zero. -/
theorem scaleNumeric_scaled (cols : List Str) (s : Scaler) (vec : JSArray)
    (hmean : s.mean.length = s.numeric_cols.length)
    (hscale : s.scale.length = s.numeric_cols.length)
    (hsub : ∀ name ∈ s.numeric_cols, name ∈ cols) (hcols : cols.Nodup)
    (hnd : s.numeric_cols.Nodup) (hvec : vec.length = cols.length)
    (i : Nat) (hi : i < s.numeric_cols.length) :
    ∃ (p : Nat) (mu sc : ℚ), cols[p]? = some (s.numeric_cols.get ⟨i, hi⟩)
      ∧ s.mean[i]? = some mu ∧ s.scale[i]? = some sc
      ∧ (if sc = 0 then (1 : ℚ) else sc) ≠ 0
      ∧ (scaleNumeric (some ⟨cols, some s⟩) vec)[p]?
          = some (some (((toNumber (arrayGet vec p)).sub (.fin mu)).div
              (.fin (if sc = 0 then 1 else sc))))
      ∧ ∀ x : ℚ, vec[p]? = some (some (.fin x)) →
          (scaleNumeric (some ⟨cols, some s⟩) vec)[p]?
            = some (some (.fin ((x - mu) / (if sc = 0 then 1 else sc)))) := by
  have hname : s.numeric_cols[i]? = some (s.numeric_cols.get ⟨i, hi⟩) := by
    rw [List.getElem?_eq_getElem hi]; rfl
  obtain ⟨p, hp⟩ := List.mem_iff_getElem?.mp (hsub _ (List.get_mem _ _ _))
  have himu : i < s.mean.length := by omega
  have hisc : i < s.scale.length := by omega
  obtain ⟨mu, hmu⟩ : ∃ mu, s.mean[i]? = some mu := ⟨_, List.getElem?_eq_getElem himu⟩
  obtain ⟨sc, hsc⟩ : ∃ sc, s.scale[i]? = some sc := ⟨_, List.getElem?_eq_getElem hisc⟩
  have hnz : (if sc = 0 then (1 : ℚ) else sc) ≠ 0 := by
    split_ifs with h0
    · exact one_ne_zero
    · exact h0
  have main := scaleNumeric_scaled_at cols s vec hnd hvec i p _ mu sc hname
    (indexOf_of_nodup _ cols p hcols hp) hmu hsc
  refine ⟨p, mu, sc, hp, hmu, hsc, hnz, main, ?_⟩
  intro x hx
  rw [main]
  simp [arrayGet, hx, toNumber, JSNumber.sub, JSNumber.div, hnz]

/-- C7, an instance on the canonical descriptor: `Velocidad_kmh`, second in
`numeric_cols` with mean 90 and scale 0, has its position scaled with the
divisor 1. -/
theorem scaleNumeric_scaled_example :
    ∃ (p : Nat) (mu sc : ℚ), canonicalColumns[p]? = some "Velocidad_kmh".data
      ∧ [(25 : ℚ), 90][1]? = some mu ∧ [(5 : ℚ), 0][1]? = some sc
      ∧ (if sc = 0 then (1 : ℚ) else sc) ≠ 0
      ∧ (scaleNumeric (some ⟨canonicalColumns,
            some ⟨["Angulo_grados".data, "Velocidad_kmh".data], [25, 90], [5, 0]⟩⟩)
          [some (.fin 95), some (.fin 20), some (.fin 1), some (.fin 1), some (.fin 0),
            some (.fin 0), some (.fin 1), some (.fin 0)])[p]?
          = some (some (((toNumber (arrayGet
              [some (.fin 95), some (.fin 20), some (.fin 1), some (.fin 1), some (.fin 0),
                some (.fin 0), some (.fin 1), some (.fin 0)] p)).sub (.fin mu)).div
              (.fin (if sc = 0 then 1 else sc))))
      ∧ ∀ x : ℚ, [some (JSNumber.fin 95), some (.fin 20), some (.fin 1), some (.fin 1),
            some (.fin 0), some (.fin 0), some (.fin 1), some (.fin 0)][p]?
            = some (some (.fin x)) →
          (scaleNumeric (some ⟨canonicalColumns,
            some ⟨["Angulo_grados".data, "Velocidad_kmh".data], [25, 90], [5, 0]⟩⟩)
          [some (.fin 95), some (.fin 20), some (.fin 1), some (.fin 1), some (.fin 0),
            some (.fin 0), some (.fin 1), some (.fin 0)])[p]?
            = some (some (.fin ((x - mu) / (if sc = 0 then 1 else sc)))) :=
  scaleNumeric_scaled canonicalColumns
    ⟨["Angulo_grados".data, "Velocidad_kmh".data], [25, 90], [5, 0]⟩
    [some (.fin 95), some (.fin 20), some (.fin 1), some (.fin 1), some (.fin 0),
      some (.fin 0), some (.fin 1), some (.fin 0)]
    rfl rfl (by decide) (by decide) (by decide) rfl 1 (by decide)

/-- C8: for a descriptor with a scaler and a vector as long as
`feature_columns`, `scaleNumeric` keeps the length, and every position that is
not the `feature_columns` index of a name of `numeric_cols` keeps its value. -/
theorem scaleNumeric_frame (cols : List Str) (s : Scaler) (vec : JSArray)
    (hvec : vec.length = cols.length) :
    (scaleNumeric (some ⟨cols, some s⟩) vec).length = vec.length
      ∧ ∀ p : Nat, (∀ name ∈ s.numeric_cols, indexOf name cols ≠ (p : Int)) →
          (scaleNumeric (some ⟨cols, some s⟩) vec)[p]? = vec[p]? := by
  refine ⟨scaleLoop_length s cols vec _ (by omega), ?_⟩
  intro p hp
  exact scaleLoop_frame s cols vec _ p (by omega)
    (fun i name _ hname => hp name (List.getElem?_mem hname))

/-- C8, an instance: the one-hot position 3 of the canonical descriptor keeps
its value, and so does every position when a numeric name is absent from the
feature columns. -/
theorem scaleNumeric_frame_example :
    (scaleNumeric (some ⟨canonicalColumns, some ⟨["Angulo_grados".data, "Altura_m".data],
        [25, 2], [5, 1]⟩⟩)
      [some (.fin 95), some (.fin 20), some (.fin 1), some (.fin 1), some (.fin 0),
        some (.fin 0), some (.fin 1), some (.fin 0)])[3]? = some (some (.fin 1)) := by
  rw [(scaleNumeric_frame canonicalColumns ⟨["Angulo_grados".data, "Altura_m".data],
    [25, 2], [5, 1]⟩ _ rfl).2 3 (by decide)]
  rfl

/-- C9: when the metadata is absent or carries no scaler, `scaleNumeric`
returns its input unchanged, for every vector. -/
theorem scaleNumeric_no_scaler (vec : JSArray) :
    scaleNumeric none vec = vec
      ∧ ∀ cols : List Str, scaleNumeric (some ⟨cols, none⟩) vec = vec :=
  ⟨rfl, fun _ => rfl⟩

/-- C10 fails as stated: with `numeric_cols = [Angulo_grados, Angulo_grados]`,
`mean = [20, 0]` and the non-zero `scale = [2, 2]`, the vector `[30]` becomes
`[5 / 2]`, and `5 / 2 * scale[i] + mean[i]` is 25 for `i = 0` and 5 for
`i = 1`, never 30. -/
theorem scaleNumeric_round_trip_counterexample :
    scaleNumeric
        (some ⟨["Angulo_grados".data],
          some ⟨["Angulo_grados".data, "Angulo_grados".data], [20, 0], [2, 2]⟩⟩)
        [some (.fin 30)] = [some (.fin (5 / 2))]
      ∧ indexOf "Angulo_grados".data ["Angulo_grados".data] = 0
      ∧ (5 / 2 : ℚ) * 2 + 20 ≠ 30 ∧ (5 / 2 : ℚ) * 2 + 0 ≠ 30 := by
  refine ⟨?_, by decide, by norm_num, by norm_num⟩
  have hr : List.range 2 = [0, 1] := by decide
  simp only [scaleNumeric, List.length_cons, List.length_nil, hr, List.foldl_cons,
    List.foldl_nil]
  have h0 : indexOf "Angulo_grados".data ["Angulo_grados".data] = 0 := by decide
  simp [scaleStep, h0, arraySet, arrayGet, toNumber, meanAt, scaleAt, JSNumber.sub,
    JSNumber.div]
  norm_num

/-- C10 as amended: when moreover `numeric_cols` has no repeated name and
`mean[i]` exists, for a non-zero `scale[i]` and `p` the `feature_columns` index
of `numeric_cols[i]`, `out[p] * scale[i] + mean[i]` gives back `vec[p]`. -/
theorem scaleNumeric_round_trip (cols : List Str) (s : Scaler) (vec : JSArray)
    (hnd : s.numeric_cols.Nodup) (hvec : vec.length = cols.length)
    (hnz : ∀ sc ∈ s.scale, sc ≠ 0) :
    ∀ (i p : Nat) (name : Str) (mu sc x : ℚ), s.numeric_cols[i]? = some name →
      indexOf name cols = (p : Int) → s.mean[i]? = some mu → s.scale[i]? = some sc →
      vec[p]? = some (some (.fin x)) →
      ∃ y : ℚ, (scaleNumeric (some ⟨cols, some s⟩) vec)[p]? = some (some (.fin y))
        ∧ y * sc + mu = x := by
  intro i p name mu sc x hname hidx hmu hsc hx
  have hsc0 : sc ≠ 0 := hnz sc (List.getElem?_mem hsc)
  have main := scaleNumeric_scaled_at cols s vec hnd hvec i p name mu sc hname hidx hmu hsc
  rw [if_neg hsc0] at main
  refine ⟨(x - mu) / sc, ?_, by field_simp⟩
  rw [main]
  simp [arrayGet, hx, toNumber, JSNumber.sub, JSNumber.div, hsc0]

/-- C10, an instance: angle 20 with mean 25 and scale 5 becomes -1, and
`-1 * 5 + 25` is 20 again. -/
theorem scaleNumeric_round_trip_example :
    ∃ y : ℚ,
      (scaleNumeric (some ⟨canonicalColumns, some ⟨["Angulo_grados".data], [25], [5]⟩⟩)
        [some (.fin 95), some (.fin 20), some (.fin 1), some (.fin 1), some (.fin 0),
          some (.fin 0), some (.fin 1), some (.fin 0)])[1]? = some (some (.fin y))
      ∧ y * 5 + 25 = 20 :=
  scaleNumeric_round_trip canonicalColumns ⟨["Angulo_grados".data], [25], [5]⟩
    [some (.fin 95), some (.fin 20), some (.fin 1), some (.fin 1), some (.fin 0),
      some (.fin 0), some (.fin 1), some (.fin 0)]
    (by decide) rfl (by simp) 0 1 "Angulo_grados".data 25 5 20 rfl (by decide) rfl rfl rfl

/-! ## Lemmas on the validation of predictFromInputs -/

theorem rangeMessage_velocidad :
    rangeMessage "Velocidad".data RANGES.Velocidad_kmh
      = "Velocidad fuera de rango (70–115)".data := by
  decide

theorem rangeMessage_angulo :
    rangeMessage "Ángulo".data RANGES.Angulo_grados = "Ángulo fuera de rango (5–45)".data := by
  decide

theorem rangeMessage_distancia :
    rangeMessage "Distancia".data RANGES.Distancia_Portero_m
      = "Distancia fuera de rango (0.4–1.2)".data := by
  have h1 : (0.4 : ℚ).num = 2 := by norm_num
  have h2 : (0.4 : ℚ).den = 5 := by norm_num
  have h3 : (1.2 : ℚ).num = 6 := by norm_num
  have h4 : (1.2 : ℚ).den = 5 := by norm_num
  simp only [rangeMessage, RANGES, numberToString, h1, h2, h3, h4]
  decide

theorem range_check_iff (x : JSNumber) (lo hi : ℚ) :
    (x.isNaN || x.lt (.fin lo) || x.gt (.fin hi)) = true ↔ ¬ x.within lo hi := by
  cases x with
  | nan => simp [JSNumber.isNaN, JSNumber.within]
  | fin q =>
    simp only [JSNumber.isNaN, JSNumber.lt, JSNumber.gt, JSNumber.within, Bool.false_or,
      Bool.or_eq_true, decide_eq_true_eq]
    constructor
    · rintro (h | h) ⟨h1, h2⟩ <;> linarith
    · intro h
      by_contra hc
      push_neg at hc
      exact h ⟨hc.1, hc.2⟩

theorem validateRanges_eq (vel ang dist : JSNumber) :
    validateRanges vel ang dist =
      if ¬ vel.within 70 115 then some "Velocidad fuera de rango (70–115)".data
      else if ¬ ang.within 5 45 then some "Ángulo fuera de rango (5–45)".data
      else if ¬ dist.within 0.4 1.2 then some "Distancia fuera de rango (0.4–1.2)".data
      else none := by
  unfold validateRanges
  rw [rangeMessage_velocidad, rangeMessage_angulo, rangeMessage_distancia]
  simp only [range_check_iff]
  rfl

theorem validateRanges_none_iff (vel ang dist : JSNumber) :
    validateRanges vel ang dist = none
      ↔ vel.within 70 115 ∧ ang.within 5 45 ∧ dist.within 0.4 1.2 := by
  rw [validateRanges_eq]
  split_ifs <;> simp_all

theorem predictFromInputs_invalid (meta : Option Meta) (model : Option Model)
    (inp : FormInputs) (msg : Str) (h : validateRanges inp.vel inp.ang inp.dist = some msg) :
    predictFromInputs meta model inp = ⟨.error msg, []⟩ := by
  unfold predictFromInputs
  rw [h]

theorem predictFromInputs_not_loaded (meta : Option Meta) (model : Option Model)
    (inp : FormInputs) (h : validateRanges inp.vel inp.ang inp.dist = none)
    (hl : meta = none ∨ model = none) :
    predictFromInputs meta model inp = ⟨.error "Modelo o metadatos no cargados.".data, []⟩ := by
  unfold predictFromInputs
  rw [h]
  rcases hl with e | e <;> subst e
  · rfl
  · cases meta <;> rfl

theorem predictFromInputs_loaded (m : Meta) (mdl : Model) (inp : FormInputs)
    (h : validateRanges inp.vel inp.ang inp.dist = none) :
    ∃ rawVec : List JSNumber,
      buildInputVector (some m) ⟨inp.vel, inp.ang, inp.dist, inp.presion, inp.pie⟩ = .ok rawVec
      ∧ predictFromInputs (some m) (some mdl) inp
        = ⟨.result
            (if (mdl.predict (scaleNumeric (some m) (rawVec.map some))).ge (.fin 0.5)
              then "GOL".data else "FALLADO".data)
            (mdl.predict (scaleNumeric (some m) (rawVec.map some))),
          [scaleNumeric (some m) (rawVec.map some)]⟩ := by
  obtain ⟨vec, hb, _⟩ := buildInputVector_sem m ⟨inp.vel, inp.ang, inp.dist, inp.presion, inp.pie⟩
  refine ⟨vec, hb, ?_⟩
  unfold predictFromInputs
  rw [h]
  simp only [hb]

/-! ## Claims on predictFromInputs -/

/-- C11: the validation of `predictFromInputs` passes exactly when velocity,
angle and distance are numbers within the inclusive bounds 70 to 115, 5 to 45
and 0.4 to 1.2; with metadata and model loaded a result is shown exactly then;
values on a bound are accepted and a `NaN` field is rejected. -/
theorem validation_succeeds_iff (vel ang dist : JSNumber) :
    (validateRanges vel ang dist = none
        ↔ vel.within 70 115 ∧ ang.within 5 45 ∧ dist.within 0.4 1.2)
      ∧ (∀ (m : Meta) (mdl : Model) (p f : Str),
          (∃ label prob calls,
              predictFromInputs (some m) (some mdl) ⟨vel, ang, dist, p, f⟩
                = ⟨.result label prob, calls⟩)
            ↔ vel.within 70 115 ∧ ang.within 5 45 ∧ dist.within 0.4 1.2)
      ∧ validateRanges (.fin 70) (.fin 5) (.fin 0.4) = none
      ∧ validateRanges (.fin 115) (.fin 45) (.fin 1.2) = none
      ∧ ((vel = .nan ∨ ang = .nan ∨ dist = .nan) → validateRanges vel ang dist ≠ none) := by
  refine ⟨validateRanges_none_iff vel ang dist, ?_, ?_, ?_, ?_⟩
  · intro m mdl p f
    rw [← validateRanges_none_iff]
    constructor
    · rintro ⟨label, prob, calls, h⟩
      cases hv : validateRanges vel ang dist with
      | none => rfl
      | some msg =>
        rw [predictFromInputs_invalid _ _ ⟨vel, ang, dist, p, f⟩ msg hv] at h
        simp at h
    · intro hv
      obtain ⟨raw, _, h⟩ := predictFromInputs_loaded m mdl ⟨vel, ang, dist, p, f⟩ hv
      exact ⟨_, _, _, h⟩
  · rw [validateRanges_none_iff]
    simp only [JSNumber.within]
    norm_num
  · rw [validateRanges_none_iff]
    simp only [JSNumber.within]
    norm_num
  · intro h hv
    rw [validateRanges_none_iff] at hv
    rcases h with e | e | e <;> subst e <;> simp [JSNumber.within] at hv

/-- C12 fails as stated: with velocity 200 and angle 100 the angle is strictly
outside its bounds, yet the failure reported names the velocity. -/
theorem failure_names_field_counterexample :
    (predictFromInputs none none
        ⟨.fin 200, .fin 100, .fin 1, "Alta".data, "Derecho".data⟩).outcome
      = .error "Velocidad fuera de rango (70–115)".data
    ∧ (45 : ℚ) < 100
    ∧ "Velocidad fuera de rango (70–115)".data ≠ "Ángulo fuera de rango (5–45)".data := by
  refine ⟨?_, by norm_num, by decide⟩
  have hv : validateRanges (.fin 200) (.fin 100) (.fin 1)
      = some "Velocidad fuera de rango (70–115)".data := by
    rw [validateRanges_eq, if_pos]
    simp only [JSNumber.within]
    norm_num
  rw [predictFromInputs_invalid none none ⟨.fin 200, .fin 100, .fin 1, _, _⟩ _ hv]

/-- C12 as amended: the failure reported names the first field, in the order
velocity, angle, distance, that is not a number within its bounds, together
with these bounds; so a field strictly outside its bounds is named when the
fields checked before it are valid. -/
theorem failure_names_first_field (meta : Option Meta) (model : Option Model)
    (inp : FormInputs) :
    (¬ inp.vel.within 70 115 →
        (predictFromInputs meta model inp).outcome
          = .error "Velocidad fuera de rango (70–115)".data)
      ∧ (inp.vel.within 70 115 → ¬ inp.ang.within 5 45 →
        (predictFromInputs meta model inp).outcome
          = .error "Ángulo fuera de rango (5–45)".data)
      ∧ (inp.vel.within 70 115 → inp.ang.within 5 45 → ¬ inp.dist.within 0.4 1.2 →
        (predictFromInputs meta model inp).outcome
          = .error "Distancia fuera de rango (0.4–1.2)".data) := by
  refine ⟨fun h1 => ?_, fun h1 h2 => ?_, fun h1 h2 h3 => ?_⟩
  · rw [predictFromInputs_invalid meta model inp _
      (by rw [validateRanges_eq, if_pos h1])]
  · rw [predictFromInputs_invalid meta model inp _
      (by rw [validateRanges_eq, if_neg (not_not.mpr h1), if_pos h2])]
  · rw [predictFromInputs_invalid meta model inp _
      (by rw [validateRanges_eq, if_neg (not_not.mpr h1), if_neg (not_not.mpr h2), if_pos h3])]

/-- C12, an instance: with a valid velocity and a valid distance, the angle 100
is reported with the bounds 5 and 45. -/
theorem failure_names_first_field_example :
    (predictFromInputs none none
        ⟨.fin 95, .fin 100, .fin 1, "Alta".data, "Derecho".data⟩).outcome
      = .error "Ángulo fuera de rango (5–45)".data :=
  (failure_names_first_field none none
      ⟨.fin 95, .fin 100, .fin 1, "Alta".data, "Derecho".data⟩).2.1
    (by simp only [JSNumber.within]; norm_num) (by simp only [JSNumber.within]; norm_num)

/-- C13 fails as stated: with nothing loaded, the invalid velocity 200 is
rejected with the range error, not with the not-ready message. -/
theorem not_ready_counterexample :
    predictFromInputs none none ⟨.fin 200, .fin 20, .fin 1, "Alta".data, "Derecho".data⟩
      = ⟨.error "Velocidad fuera de rango (70–115)".data, []⟩
    ∧ "Velocidad fuera de rango (70–115)".data ≠ "Modelo o metadatos no cargados.".data := by
  refine ⟨?_, by decide⟩
  have hv : validateRanges (.fin 200) (.fin 20) (.fin 1)
      = some "Velocidad fuera de rango (70–115)".data := by
    rw [validateRanges_eq, if_pos]
    simp only [JSNumber.within]
    norm_num
  exact predictFromInputs_invalid none none ⟨.fin 200, .fin 20, .fin 1, _, _⟩ _ hv

/-- C13 as amended: whenever the metadata or the model is not loaded, every
invocation whose input passes the range validation is rejected with the
not-ready message, and no row is handed to the model. -/
theorem not_ready_after_validation (meta : Option Meta) (model : Option Model)
    (inp : FormInputs) (hl : meta = none ∨ model = none)
    (hv : inp.vel.within 70 115 ∧ inp.ang.within 5 45 ∧ inp.dist.within 0.4 1.2) :
    predictFromInputs meta model inp
      = ⟨.error "Modelo o metadatos no cargados.".data, []⟩ :=
  predictFromInputs_not_loaded meta model inp ((validateRanges_none_iff _ _ _).mpr hv) hl

/-- C13, an instance: a valid input with the metadata loaded and the model
missing gets the not-ready message. -/
theorem not_ready_example :
    predictFromInputs (some ⟨canonicalColumns, none⟩) none
        ⟨.fin 95, .fin 20, .fin 1, "Alta".data, "Derecho".data⟩
      = ⟨.error "Modelo o metadatos no cargados.".data, []⟩ :=
  not_ready_after_validation (some ⟨canonicalColumns, none⟩) none
    ⟨.fin 95, .fin 20, .fin 1, "Alta".data, "Derecho".data⟩ (Or.inr rfl)
    (by simp only [JSNumber.within]; norm_num)

/-- C14: for every input that fails the validation, `predictFromInputs` shows
the validation error and hands no row to the model, whatever the metadata and
the model: the run is the same for every metadata descriptor and every
model. -/
theorem validation_failure_independent (inp : FormInputs)
    (h : ¬ (inp.vel.within 70 115 ∧ inp.ang.within 5 45 ∧ inp.dist.within 0.4 1.2)) :
    ∃ msg : Str, validateRanges inp.vel inp.ang inp.dist = some msg
      ∧ ∀ (meta : Option Meta) (model : Option Model),
          predictFromInputs meta model inp = ⟨.error msg, []⟩ := by
  cases hv : validateRanges inp.vel inp.ang inp.dist with
  | none => exact absurd ((validateRanges_none_iff _ _ _).mp hv) h
  | some msg => exact ⟨msg, rfl, fun meta model => predictFromInputs_invalid meta model inp msg hv⟩

/-- C14, the scenario of the specification: velocity 200 fails the validation,
and the run is one error message and no call of the model, whatever is
loaded. -/
theorem validation_failure_scenario :
    ∃ msg : Str,
      validateRanges (.fin 200) (.fin 20) (.fin 0.8) = some msg
      ∧ ∀ (meta : Option Meta) (model : Option Model),
          predictFromInputs meta model ⟨.fin 200, .fin 20, .fin 0.8, "Alta".data, "Derecho".data⟩
            = ⟨.error msg, []⟩ :=
  validation_failure_independent ⟨.fin 200, .fin 20, .fin 0.8, "Alta".data, "Derecho".data⟩
    (by simp only [JSNumber.within]; norm_num)

/-- C15 fails as stated: for the probability 0.73 on a valid input the label
shown is `GOL`, not `GOAL`. -/
theorem label_counterexample :
    (predictFromInputs (some ⟨canonicalColumns, none⟩) (some ⟨fun _ => .fin 0.73⟩)
        ⟨.fin 95, .fin 20, .fin 0.8, "Alta".data, "Derecho".data⟩).outcome
      = .result "GOL".data (.fin 0.73)
    ∧ "GOL".data ≠ "GOAL".data := by
  refine ⟨?_, by decide⟩
  have hv : validateRanges (.fin 95) (.fin 20) (.fin 0.8) = none := by
    rw [validateRanges_none_iff]
    simp only [JSNumber.within]
    norm_num
  obtain ⟨raw, _, h⟩ := predictFromInputs_loaded ⟨canonicalColumns, none⟩ ⟨fun _ => .fin 0.73⟩
    ⟨.fin 95, .fin 20, .fin 0.8, "Alta".data, "Derecho".data⟩ hv
  rw [h]
  have hge : (JSNumber.fin 0.73).ge (.fin 0.5) = true := by
    simp only [JSNumber.ge, decide_eq_true_eq]
    norm_num
  simp only [hge, if_true]

/-- C15 as amended: for a valid input with metadata and model loaded, the one
row handed to the model is the scaled vector, and the label shown for the
probability `p` it returns is `GOL` when `p` is a number with `p ≥ 0.5`
(0.5 included) and `FALLADO` otherwise (also for `NaN`). -/
theorem label_threshold (m : Meta) (mdl : Model) (inp : FormInputs)
    (hv : inp.vel.within 70 115 ∧ inp.ang.within 5 45 ∧ inp.dist.within 0.4 1.2) :
    ∃ (rawVec : List JSNumber) (label : Str),
      buildInputVector (some m) ⟨inp.vel, inp.ang, inp.dist, inp.presion, inp.pie⟩ = .ok rawVec
      ∧ predictFromInputs (some m) (some mdl) inp
          = ⟨.result label (mdl.predict (scaleNumeric (some m) (rawVec.map some))),
              [scaleNumeric (some m) (rawVec.map some)]⟩
      ∧ ((∃ p : ℚ, mdl.predict (scaleNumeric (some m) (rawVec.map some)) = .fin p ∧ 0.5 ≤ p) →
          label = "GOL".data)
      ∧ ((¬ ∃ p : ℚ, mdl.predict (scaleNumeric (some m) (rawVec.map some)) = .fin p ∧ 0.5 ≤ p) →
          label = "FALLADO".data) := by
  obtain ⟨raw, hb, h⟩ := predictFromInputs_loaded m mdl inp ((validateRanges_none_iff _ _ _).mpr hv)
  refine ⟨raw, _, hb, h, ?_, ?_⟩
  · rintro ⟨p, hp, hle⟩
    rw [hp]
    simp [JSNumber.ge, hle]
  · intro hn
    cases hp : mdl.predict (scaleNumeric (some m) (raw.map some)) with
    | nan => simp [JSNumber.ge]
    | fin p =>
      have : ¬ (0.5 : ℚ) ≤ p := fun hle => hn ⟨p, hp, hle⟩
      simp [JSNumber.ge, this]

/-- C15, an instance: the probability exactly 0.5 on a valid input gives the
label `GOL`. -/
theorem label_threshold_example :
    ∃ (rawVec : List JSNumber) (label : Str),
      buildInputVector (some ⟨canonicalColumns, none⟩)
          ⟨.fin 95, .fin 20, .fin 1, "Alta".data, "Derecho".data⟩ = .ok rawVec
      ∧ predictFromInputs (some ⟨canonicalColumns, none⟩) (some ⟨fun _ => .fin 0.5⟩)
            ⟨.fin 95, .fin 20, .fin 1, "Alta".data, "Derecho".data⟩
          = ⟨.result label (.fin 0.5),
              [scaleNumeric (some ⟨canonicalColumns, none⟩) (rawVec.map some)]⟩
      ∧ ((∃ p : ℚ, JSNumber.fin 0.5 = .fin p ∧ 0.5 ≤ p) → label = "GOL".data)
      ∧ ((¬ ∃ p : ℚ, JSNumber.fin 0.5 = .fin p ∧ 0.5 ≤ p) → label = "FALLADO".data) :=
  label_threshold ⟨canonicalColumns, none⟩ ⟨fun _ => .fin 0.5⟩
    ⟨.fin 95, .fin 20, .fin 1, "Alta".data, "Derecho".data⟩
    (by simp only [JSNumber.within]; norm_num)

theorem pushColumn_zero_one (row : Row) (c : Str)
    (hn : ¬ (c = "Velocidad_kmh".data ∨ c = "Angulo_grados".data
      ∨ c = "Distancia_Portero_m".data)) :
    pushColumn row [] c = .ok [.fin 0] ∨ pushColumn row [] c = .ok [.fin 1] := by
  unfold pushColumn
  rw [if_neg hn]
  unfold matchColumn
  by_cases he : '=' ∈ c
  · obtain ⟨k, v, rest, e⟩ := split_of_mem '=' c he
    by_cases hr : rowGet row (trim k) = .string (trim v)
    · right; simp [he, e, hr]
    · left; simp [he, e, hr]
  · by_cases hl : 0 < lastIndexOf '_' c
    · by_cases hc : rowGet row (substring c 0 (lastIndexOf '_' c).toNat) ≠ .undefined
          ∧ toLowerCase (rowValToString (rowGet row (substring c 0 (lastIndexOf '_' c).toNat)))
            = toLowerCase (substringFrom c ((lastIndexOf '_' c).toNat + 1))
      · right
        simp only [he, hl, if_true, if_false, if_pos hc]
        rfl
      · left
        simp only [he, hl, if_true, if_false, if_neg hc]
        rfl
    · left
      simp only [he, hl, if_false]
      rfl

/-- C16: every entry of the result of `buildInputVector` at a position whose
column name is none of the three numeric field names is 0 or 1. -/
theorem buildInputVector_one_hot_entries (m : Meta) (values : Values) :
    ∃ vec : List JSNumber, buildInputVector (some m) values = .ok vec
      ∧ vec.length = m.feature_columns.length
      ∧ ∀ i (h : i < m.feature_columns.length),
          ¬ (m.feature_columns.get ⟨i, h⟩ = "Velocidad_kmh".data
            ∨ m.feature_columns.get ⟨i, h⟩ = "Angulo_grados".data
            ∨ m.feature_columns.get ⟨i, h⟩ = "Distancia_Portero_m".data) →
          vec[i]? = some (.fin 0) ∨ vec[i]? = some (.fin 1) := by
  obtain ⟨vec, hb, hlen, hget⟩ := buildInputVector_sem m values
  refine ⟨vec, hb, hlen, ?_⟩
  intro i h hn
  rcases pushColumn_zero_one (mkRow values) _ hn with e | e
  · exact Or.inl (hget i h _ e)
  · exact Or.inr (hget i h _ e)

/-! ## Claims on the hard-coded variant -/

/-- C17: on the canonical schema, with `numeric_cols` the first three columns
and the means and the non-zero scales of app.js, `scaleNumeric` applied to the
result of `buildInputVector` is the vector `input` that `predecir` builds,
for every velocity, angle and distance, the three pressure levels and the two
feet. -/
theorem script_agrees_with_predecir (v a d : JSNumber) (p f : Str) (mean scale : List ℚ)
    (hlen : 3 ≤ scale.length) (hnz : ∀ sc ∈ scale, sc ≠ 0)
    (hp : p = "Alta".data ∨ p = "Media".data ∨ p = "Baja".data)
    (hf : f = "Derecho".data ∨ f = "Izquierdo".data) :
    ∃ rawVec : List JSNumber,
      buildInputVector
          (some ⟨canonicalColumns,
            some ⟨["Velocidad_kmh".data, "Angulo_grados".data, "Distancia_Portero_m".data],
              mean, scale⟩⟩) ⟨v, a, d, p, f⟩ = .ok rawVec
      ∧ scaleNumeric
          (some ⟨canonicalColumns,
            some ⟨["Velocidad_kmh".data, "Angulo_grados".data, "Distancia_Portero_m".data],
              mean, scale⟩⟩) (rawVec.map some)
        = (predecirInput mean scale v a d p f).map some := by
  refine ⟨_, buildInputVector_canonical v a d p f _ hp hf, ?_⟩
  obtain ⟨s0, s1, s2, rest, rfl⟩ : ∃ s0 s1 s2 rest, scale = s0 :: s1 :: s2 :: rest := by
    match scale, hlen with
    | s0 :: s1 :: s2 :: rest, _ => exact ⟨s0, s1, s2, rest, rfl⟩
  have h0 : s0 ≠ 0 := hnz s0 (by simp)
  have h1 : s1 ≠ 0 := hnz s1 (by simp)
  have h2 : s2 ≠ 0 := hnz s2 (by simp)
  have hr : List.range 3 = [0, 1, 2] := by decide
  have i0 : indexOf "Velocidad_kmh".data canonicalColumns = 0 := by decide
  have i1 : indexOf "Angulo_grados".data canonicalColumns = 1 := by decide
  have i2 : indexOf "Distancia_Portero_m".data canonicalColumns = 2 := by decide
  simp only [scaleNumeric, List.length_cons, List.length_nil, hr, List.foldl_cons,
    List.foldl_nil, List.map_cons, List.map_nil]
  simp [scaleStep, i0, i1, i2, arraySet, arrayGet, toNumber, meanAt, scaleAt, h0, h1, h2,
    predecirInput, normalizar, numberAt]

/-- C17, the scenario of the specification: velocity 95, angle 20, distance
0.8, pressure Alta and foot Derecho, with means 90, 25, 0.8 and scales 10, 5,
0.2. -/
theorem script_agrees_with_predecir_scenario :
    ∃ rawVec : List JSNumber,
      buildInputVector
          (some ⟨canonicalColumns,
            some ⟨["Velocidad_kmh".data, "Angulo_grados".data, "Distancia_Portero_m".data],
              [90, 25, 0.8], [10, 5, 0.2]⟩⟩)
          ⟨.fin 95, .fin 20, .fin 0.8, "Alta".data, "Derecho".data⟩ = .ok rawVec
      ∧ scaleNumeric
          (some ⟨canonicalColumns,
            some ⟨["Velocidad_kmh".data, "Angulo_grados".data, "Distancia_Portero_m".data],
              [90, 25, 0.8], [10, 5, 0.2]⟩⟩) (rawVec.map some)
        = (predecirInput [90, 25, 0.8] [10, 5, 0.2] (.fin 95) (.fin 20) (.fin 0.8)
            "Alta".data "Derecho".data).map some :=
  script_agrees_with_predecir (.fin 95) (.fin 20) (.fin 0.8) "Alta".data "Derecho".data
    [90, 25, 0.8] [10, 5, 0.2] (by decide) (by norm_num) (Or.inl rfl) (Or.inl rfl)

/-- C18: the validation of `predecir` rejects an input exactly when velocity,
angle or distance is a number strictly outside 60 to 140, 0 to 60 and 0.3 to 2;
a `NaN` field fires no check, so an input of three `NaN` is not rejected,
whereas the validation of `predictFromInputs` rejects every input with a `NaN`
field. -/
theorem predecir_validation_iff (vel ang dist : JSNumber) :
    (predecirValidation vel ang dist ≠ none
        ↔ (∃ v : ℚ, vel = .fin v ∧ (v < 60 ∨ 140 < v))
          ∨ (∃ a : ℚ, ang = .fin a ∧ (a < 0 ∨ 60 < a))
          ∨ (∃ d : ℚ, dist = .fin d ∧ (d < 0.3 ∨ 2 < d)))
      ∧ predecirValidation .nan .nan .nan = none
      ∧ (predecirValidation .nan ang dist = none ↔ predecirValidation (.fin 100) ang dist = none)
      ∧ ((vel = .nan ∨ ang = .nan ∨ dist = .nan) → validateRanges vel ang dist ≠ none) := by
  have key : ∀ (x : JSNumber) (lo hi : ℚ),
      (x.lt (.fin lo) || x.gt (.fin hi)) = true ↔ ∃ q : ℚ, x = .fin q ∧ (q < lo ∨ hi < q) := by
    intro x lo hi
    cases x with
    | nan => simp [JSNumber.lt, JSNumber.gt]
    | fin q => simp [JSNumber.lt, JSNumber.gt]
  refine ⟨?_, ?_, ?_, ?_⟩
  · unfold predecirValidation
    split_ifs with h1 h2 h3
    · exact ⟨fun _ => Or.inl ((key _ _ _).mp h1), fun _ => by simp⟩
    · exact ⟨fun _ => Or.inr (Or.inl ((key _ _ _).mp h2)), fun _ => by simp⟩
    · exact ⟨fun _ => Or.inr (Or.inr ((key _ _ _).mp h3)), fun _ => by simp⟩
    · constructor
      · intro h
        exact absurd rfl h
      · rintro (h | h | h)
        · exact absurd ((key _ _ _).mpr h) h1
        · exact absurd ((key _ _ _).mpr h) h2
        · exact absurd ((key _ _ _).mpr h) h3
  · rfl
  · have e1 : (JSNumber.nan.lt (.fin 60) || JSNumber.nan.gt (.fin 140)) = false := rfl
    have e2 : ((JSNumber.fin 100).lt (.fin 60) || (JSNumber.fin 100).gt (.fin 140)) = false := by
      simp only [JSNumber.lt, JSNumber.gt, Bool.or_eq_false_iff, decide_eq_false_iff_not]
      norm_num
    unfold predecirValidation
    rw [e1, e2]
  · intro h hv
    rw [validateRanges_none_iff] at hv
    rcases h with e | e | e <;> subst e <;> simp [JSNumber.within] at hv

/-! ## The loop of buildInputVector over the operations of the engine -/

theorem rowValToStringWith_model (v : RowVal) :
    rowValToStringWith numberToString v = rowValToString v := by
  cases v <;> rfl

theorem matchColumnWith_model (row : Row) (vec : List JSNumber) (c : Str) :
    matchColumnWith toLowerCase numberToString row vec c = matchColumn row vec c := by
  unfold matchColumnWith matchColumn
  simp only [rowValToStringWith_model]

theorem pushColumnWith_model (row : Row) (vec : List JSNumber) (c : Str) :
    pushColumnWith toLowerCase numberToString row vec c = pushColumn row vec c := by
  unfold pushColumnWith pushColumn
  simp only [matchColumnWith_model]

theorem buildInputVectorWith_model (meta : Option Meta) (values : Values) :
    buildInputVectorWith toLowerCase numberToString meta values
      = buildInputVector meta values := by
  have h : pushColumnWith toLowerCase numberToString (mkRow values) = pushColumn (mkRow values) := by
    funext vec c
    exact pushColumnWith_model _ vec c
  unfold buildInputVectorWith buildInputVector
  simp only [h]

theorem matchColumnWith_shape (lower : Str → Str) (numStr : JSNumber → Str) (row : Row)
    (c : Str) :
    (∃ x, ∀ vec, matchColumnWith lower numStr row vec c = .ok (vec ++ [x], true))
      ∨ (∀ vec, matchColumnWith lower numStr row vec c = .ok (vec, false)) := by
  unfold matchColumnWith
  by_cases he : '=' ∈ c
  · obtain ⟨k, v, rest, e⟩ := split_of_mem '=' c he
    left
    by_cases hr : rowGet row (trim k) = .string (trim v)
    · exact ⟨.fin 1, fun vec => by simp [he, e, hr]⟩
    · exact ⟨.fin 0, fun vec => by simp [he, e, hr]⟩
  · by_cases hl : 0 < lastIndexOf '_' c
    · left
      by_cases hc : rowGet row (substring c 0 (lastIndexOf '_' c).toNat) ≠ .undefined
          ∧ lower (rowValToStringWith numStr
              (rowGet row (substring c 0 (lastIndexOf '_' c).toNat)))
            = lower (substringFrom c ((lastIndexOf '_' c).toNat + 1))
      · exact ⟨.fin 1, fun vec => by simp only [he, hl, if_true, if_false, if_pos hc]⟩
      · exact ⟨.fin 0, fun vec => by simp only [he, hl, if_true, if_false, if_neg hc]⟩
    · right
      intro vec
      simp only [he, hl, if_false]

theorem pushColumnWith_shape (lower : Str → Str) (numStr : JSNumber → Str) (row : Row)
    (c : Str) : ∃ x, ∀ vec, pushColumnWith lower numStr row vec c = .ok (vec ++ [x]) := by
  unfold pushColumnWith
  by_cases hn : c = "Velocidad_kmh".data ∨ c = "Angulo_grados".data
      ∨ c = "Distancia_Portero_m".data
  · cases hr : rowGet row c with
    | undefined => exact ⟨.fin 0, fun vec => by simp only [if_pos hn]⟩
    | number x => exact ⟨x, fun vec => by simp only [if_pos hn]⟩
    | string s => exact ⟨.nan, fun vec => by simp only [if_pos hn]⟩
    | object t => exact ⟨.nan, fun vec => by simp only [if_pos hn]⟩
  · rcases matchColumnWith_shape lower numStr row c with ⟨x, hx⟩ | hx
    · exact ⟨x, fun vec => by simp [if_neg hn, hx vec]⟩
    · exact ⟨.fin 0, fun vec => by simp [if_neg hn, hx vec]⟩

theorem foldlM_push (f : List JSNumber → Str → Except JSError (List JSNumber))
    (hf : ∀ c, ∃ x, ∀ acc, f acc c = .ok (acc ++ [x])) (cols : List Str) :
    ∃ vs : List JSNumber, vs.length = cols.length
      ∧ (∀ acc, cols.foldlM f acc = .ok (acc ++ vs))
      ∧ ∀ i (h : i < cols.length) (x : JSNumber), f [] (cols.get ⟨i, h⟩) = .ok [x] →
          vs[i]? = some x := by
  induction cols with
  | nil => exact ⟨[], rfl, fun acc => by simp [pure, Except.pure], fun i h => absurd h (by simp)⟩
  | cons c cs ih =>
    obtain ⟨x, hx⟩ := hf c
    obtain ⟨vs, hlen, hfold, hget⟩ := ih
    refine ⟨x :: vs, by simp [hlen], ?_, ?_⟩
    · intro acc
      rw [List.foldlM_cons, hx acc]
      show cs.foldlM f (acc ++ [x]) = _
      rw [hfold]
      simp
    · intro i h y hy
      cases i with
      | zero =>
        have h0 := hx []
        simp only [List.get_eq_getElem, List.getElem_cons_zero] at hy
        rw [hy] at h0
        have : y = x := by simpa using h0
        simp [this]
      | succ j =>
        have hj : j < cs.length := by simpa using h
        simpa using hget j hj y (by simpa using hy)

theorem buildInputVectorWith_sem (lower : Str → Str) (numStr : JSNumber → Str) (m : Meta)
    (values : Values) :
    ∃ vec : List JSNumber, buildInputVectorWith lower numStr (some m) values = .ok vec
      ∧ vec.length = m.feature_columns.length
      ∧ ∀ i (h : i < m.feature_columns.length) (x : JSNumber),
          pushColumnWith lower numStr (mkRow values) [] (m.feature_columns.get ⟨i, h⟩)
            = .ok [x] →
          vec[i]? = some x := by
  obtain ⟨vs, hlen, hfold, hget⟩ := foldlM_push (pushColumnWith lower numStr (mkRow values))
    (pushColumnWith_shape lower numStr (mkRow values)) m.feature_columns
  exact ⟨vs, by simpa [buildInputVectorWith] using hfold [], hlen, hget⟩

theorem pushColumnWith_underscore (lower : Str → Str) (numStr : JSNumber → Str) (row : Row)
    (acc : List JSNumber) (key val : Str)
    (hval : '_' ∉ val) (heq : '=' ∉ key ++ '_' :: val)
    (hnum : ¬ (key ++ '_' :: val = "Velocidad_kmh".data ∨ key ++ '_' :: val = "Angulo_grados".data
      ∨ key ++ '_' :: val = "Distancia_Portero_m".data)) :
    pushColumnWith lower numStr row acc (key ++ '_' :: val)
      = .ok (acc ++ [if key ≠ [] ∧ rowGet row key ≠ .undefined
          ∧ lower (rowValToStringWith numStr (rowGet row key)) = lower val
        then .fin 1 else .fin 0]) := by
  unfold pushColumnWith matchColumnWith
  rw [if_neg hnum, if_neg heq]
  simp only [lastIndexOf_append '_' key val hval]
  by_cases hk : key = []
  · subst hk
    simp
  · have hpos : (0 : Int) < (key.length : Int) := by
      have := List.length_pos.mpr hk
      omega
    simp only [hpos, if_true, Int.toNat_ofNat, substring_append, substringFrom_append]
    by_cases hc : rowGet row key ≠ .undefined
        ∧ lower (rowValToStringWith numStr (rowGet row key)) = lower val
    · rw [if_pos hc, if_pos ⟨hk, hc⟩]; simp
    · rw [if_neg hc, if_neg (fun h => hc h.2)]; simp

theorem rowGet_storedTextWith (numStr : JSNumber → Str) (values : Values) (key : Str)
    (hproto : objectPrototype.lookup key = none) :
    (storedTextWith numStr values key = none ∧ rowGet (mkRow values) key = .undefined)
      ∨ ∃ s, storedTextWith numStr values key = some s
          ∧ rowGet (mkRow values) key ≠ .undefined
          ∧ rowValToStringWith numStr (rowGet (mkRow values) key) = s := by
  rw [rowGet_mkRow]
  unfold storedTextWith storedCategorical
  split_ifs <;> simp [hproto, rowValToStringWith]

theorem underscore_valueWith (lower : Str → Str) (numStr : JSNumber → Str) (values : Values)
    (key val : Str) (hproto : objectPrototype.lookup key = none) :
    (if key ≠ [] ∧ rowGet (mkRow values) key ≠ .undefined
          ∧ lower (rowValToStringWith numStr (rowGet (mkRow values) key)) = lower val
        then JSNumber.fin 1 else JSNumber.fin 0)
      = match storedTextWith numStr values key with
        | some s => if lower s = lower val then .fin 1 else .fin 0
        | none => .fin 0 := by
  rcases rowGet_storedTextWith numStr values key hproto with ⟨h1, h2⟩ | ⟨s, h1, h2, h3⟩
  · simp [h1, h2]
  · have hk : key ≠ [] := by
      rintro rfl
      exact h2 (by rw [rowGet_mkRow]; rfl)
    simp [h1, h2, h3, hk]

/-- C4 as amended: for a column `key_val` (no `=`, `val` without underscore,
not a numeric field name) whose key is not the name of a property inherited
from `Object.prototype`, the entry is 1 exactly when `row` holds a text under
`key` (a non-empty categorical value, or a numeric input in its string form)
that equals `val` after `toLowerCase()`, and 0 otherwise; this for every
`toLowerCase` and every Number::toString, hence for those of the engine. -/
theorem underscore_column_entry (lower : Str → Str) (numStr : JSNumber → Str) (m : Meta)
    (values : Values) :
    ∃ vec : List JSNumber, buildInputVectorWith lower numStr (some m) values = .ok vec
      ∧ ∀ i (h : i < m.feature_columns.length) (key val : Str),
          m.feature_columns.get ⟨i, h⟩ = key ++ '_' :: val → '_' ∉ val →
          '=' ∉ key ++ '_' :: val →
          ¬ (key ++ '_' :: val = "Velocidad_kmh".data ∨ key ++ '_' :: val = "Angulo_grados".data
            ∨ key ++ '_' :: val = "Distancia_Portero_m".data) →
          objectPrototype.lookup key = none →
          vec[i]? = some (match storedTextWith numStr values key with
            | some s => if lower s = lower val then .fin 1 else .fin 0
            | none => .fin 0) := by
  obtain ⟨vec, hb, _, hget⟩ := buildInputVectorWith_sem lower numStr m values
  refine ⟨vec, hb, ?_⟩
  intro i h key val hc hval heq hnum hproto
  apply hget i h
  rw [hc, pushColumnWith_underscore lower numStr _ [] key val hval heq hnum,
    underscore_valueWith lower numStr values key val hproto]
  rfl

/-- C4, the example of the specification: the column `Pie_Dominante_Derecho`
with the foot given as `DeReChO` gets 1. -/
theorem underscore_column_any_case :
    ∃ vec : List JSNumber,
      buildInputVector (some ⟨["Pie_Dominante_Derecho".data], none⟩)
        ⟨.fin 95, .fin 20, .fin 1, "Alta".data, "DeReChO".data⟩ = .ok vec
      ∧ vec[0]? = some (.fin 1) := by
  obtain ⟨vec, hb, hv⟩ := underscore_column_entry toLowerCase numberToString
    ⟨["Pie_Dominante_Derecho".data], none⟩
    ⟨.fin 95, .fin 20, .fin 1, "Alta".data, "DeReChO".data⟩
  rw [buildInputVectorWith_model] at hb
  refine ⟨vec, hb, ?_⟩
  have := hv 0 (by decide) "Pie_Dominante".data "Derecho".data rfl (by decide) (by decide)
    (by decide) (by decide)
  rw [this]
  rfl

end Penaltis
